import Mathlib

/-!
Verification of the Minesweeper genetic-algorithm trainer
(`campo_minado`, training engine translation).

The C++ source fixes `GRID_WIDTH = 10`, `GRID_HEIGHT = 10`, `NUM_MINES = 15`,
`POPULATION_SIZE = 300`, `NUM_RULES = 150`.  The embedding keeps these as
parameters `W H M P R : Nat`; every bounds check and win-condition test uses
the parameter exactly where the C++ uses the constant.  C++ `int` fields are
embedded as `Int`, C++ `double` scores as `ℚ` (exact arithmetic standing in
for IEEE doubles), and the process-wide `std::mt19937` as an explicit stream
`Nat → Nat` of draws (a uniform draw in `[0, n-1]` is modelled as
`stream k % n`, covering every possible outcome).
-/

namespace CampoMinado

/-- `enum CellState { HIDDEN, REVEALED, FLAGGED }`. -/
inductive CellState where
  | HIDDEN
  | REVEALED
  | FLAGGED
deriving DecidableEq, Repr

export CellState (HIDDEN REVEALED FLAGGED)

/-- `struct Cell { bool isMine = false; int neighboringMines = 0; CellState state = HIDDEN; }`. -/
structure Cell where
  isMine : Bool := false
  neighboringMines : Nat := 0
  state : CellState := HIDDEN
deriving DecidableEq, Repr

/-- The default-constructed `Cell()` of the C++ source. -/
def defaultCell : Cell := {}

/-- `struct Game { grid; bool gameOver = false; bool youWin = false; }`.
The grid is row-major: `grid[y][x]` in the C++ becomes
`(grid.get y).get x` here. -/
structure Game where
  grid : List (List Cell)
  gameOver : Bool := false
  youWin : Bool := false
deriving DecidableEq, Repr

def isHidden (c : Cell) : Bool :=
  match c.state with
  | HIDDEN => true
  | _ => false

def isRevealed (c : Cell) : Bool :=
  match c.state with
  | REVEALED => true
  | _ => false

def isFlagged (c : Cell) : Bool :=
  match c.state with
  | FLAGGED => true
  | _ => false

/-- Read `grid[y][x]` (out-of-range reads return the default cell; all C++
accesses are bounds-checked before indexing). -/
def cellAt (grid : List (List Cell)) (x y : Nat) : Cell :=
  (grid.getD y []).getD x defaultCell

/-- Write the state of `grid[y][x]`. -/
def setCellState (grid : List (List Cell)) (x y : Nat) (st : CellState) : List (List Cell) :=
  grid.set y ((grid.getD y []).set x { cellAt grid x y with state := st })

/-- The bounds test `x >= 0 && x < GRID_WIDTH && y >= 0 && y < GRID_HEIGHT`. -/
def inBounds (W H : Nat) (x y : Int) : Bool :=
  0 ≤ x && x < (W : Int) && 0 ≤ y && y < (H : Int)

/-- The board coordinates in the scan order of every C++ grid loop:
`y` outer `0..H-1`, `x` inner `0..W-1`. -/
def allCoords (W H : Nat) : List (Nat × Nat) :=
  ((List.range H) ×ˢ (List.range W)).map (fun yx => (yx.2, yx.1))

/-- Count of the board cells satisfying `p`, scanning the coordinates the way
every counting loop of the C++ does. -/
def countCoords (W H : Nat) (grid : List (List Cell)) (p : Cell → Bool) : Nat :=
  ((allCoords W H).filter (fun cc => p (cellAt grid cc.1 cc.2))).length

/-- `checkWinCondition`: count the `REVEALED` cells of the whole grid and set
`youWin` when the count equals `GRID_WIDTH * GRID_HEIGHT - NUM_MINES`
(note: the C++ counts every revealed cell, mines included). -/
def checkWinCondition (W H M : Nat) (g : Game) : Game :=
  let revealedCount := countCoords W H g.grid isRevealed
  if (revealedCount : Int) = (W : Int) * (H : Int) - (M : Int) then
    { g with youWin := true }
  else g

mutual

/-- `revealCell`, with explicit recursion fuel (the C++ call-stack recursion
terminates because every non-trivial call turns one `HIDDEN` cell into
`REVEALED`; `revealCell` below instantiates the fuel with a proven-sufficient
amount).  Out of bounds or not hidden: no-op.  A revealed mine marks the
board lost and returns at once.  A zero-count cell floods its
neighbourhood.  Every non-mine reveal ends with `checkWinCondition`. -/
def revealCellF (W H M : Nat) (fuel : Nat) (g : Game) (x y : Int) : Game :=
  match fuel with
  | 0 => g
  | fuel'+1 =>
    if x < 0 || (W : Int) ≤ x || y < 0 || (H : Int) ≤ y then g
    else if (cellAt g.grid x.toNat y.toNat).state = HIDDEN then
      if (cellAt g.grid x.toNat y.toNat).isMine then
        { grid := setCellState g.grid x.toNat y.toNat REVEALED, gameOver := true,
          youWin := g.youWin }
      else
        checkWinCondition W H M
          (if (cellAt g.grid x.toNat y.toNat).neighboringMines = 0 then
            revealFlood W H M fuel'
              { g with grid := setCellState g.grid x.toNat y.toNat REVEALED } x y
          else { g with grid := setCellState g.grid x.toNat y.toNat REVEALED })
    else g
termination_by (fuel, 0)

/-- The eight recursive flood-fill calls of `revealCell`, in the C++ loop
order `dy = -1..1` outer, `dx = -1..1` inner, the no-op `(0, 0)` call
included. -/
def revealFlood (W H M : Nat) (fuel : Nat) (g : Game) (x y : Int) : Game :=
  let r1 := revealCellF W H M fuel g (x-1) (y-1)
  let r2 := revealCellF W H M fuel r1 x (y-1)
  let r3 := revealCellF W H M fuel r2 (x+1) (y-1)
  let r4 := revealCellF W H M fuel r3 (x-1) y
  let r5 := revealCellF W H M fuel r4 x y
  let r6 := revealCellF W H M fuel r5 (x+1) y
  let r7 := revealCellF W H M fuel r6 (x-1) (y+1)
  let r8 := revealCellF W H M fuel r7 x (y+1)
  revealCellF W H M fuel r8 (x+1) (y+1)
termination_by (fuel, 1)

end

/-- Number of currently hidden cells of the board. -/
def hiddenCountG (W H : Nat) (g : Game) : Nat :=
  countCoords W H g.grid isHidden

/-- `revealCell` proper: the fuel `hiddenCountG g + 1` bounds the recursion
depth, since each recursive level has strictly fewer hidden cells left. -/
def revealCell (W H M : Nat) (g : Game) (x y : Int) : Game :=
  revealCellF W H M (hiddenCountG W H g + 1) g x y

/-- `placeFlag`: no-op out of bounds or unless the cell is `HIDDEN`. -/
def placeFlag (W H : Nat) (g : Game) (x y : Int) : Game :=
  if x < 0 || (W : Int) ≤ x || y < 0 || (H : Int) ≤ y then g
  else if (cellAt g.grid x.toNat y.toNat).state = HIDDEN then
    { g with grid := setCellState g.grid x.toNat y.toNat FLAGGED }
  else g

/-- `grid[y][x]` of a mine bitmap (`std::vector<std::vector<bool>>`). -/
def bmAt (mg : List (List Bool)) (x y : Nat) : Bool :=
  (mg.getD y []).getD x false

/-- The nine `(dx, dy)` offsets of the C++ double loop
`for (dy = -1..1) for (dx = -1..1)`. -/
def nbrOffsets : List (Int × Int) :=
  [(-1,-1), (0,-1), (1,-1), (-1,0), (0,0), (1,0), (-1,1), (0,1), (1,1)]

/-- Neighbouring-mine count computed by `initializeGridFixed` for a non-mine
cell: the in-bounds neighbours (the centre included, which cannot be a mine
in the branch where this is used) carrying a mine in the bitmap. -/
def mineNbrCountBm (W H : Nat) (mg : List (List Bool)) (x y : Nat) : Nat :=
  (nbrOffsets.filter (fun o =>
    let nx := (x : Int) + o.1
    let ny := (y : Int) + o.2
    inBounds W H nx ny && bmAt mg nx.toNat ny.toNat)).length

/-- The grid built by the two initial loops of `initializeGridFixed`:
mines installed from the bitmap, then neighbour counts computed for every
non-mine cell (mine cells keep the default count 0). -/
def buildGrid (W H : Nat) (mg : List (List Bool)) : List (List Cell) :=
  (List.range H).map fun y =>
    (List.range W).map fun x =>
      if bmAt mg x y then { isMine := true, neighboringMines := 0, state := HIDDEN }
      else { isMine := false, neighboringMines := mineNbrCountBm W H mg x y, state := HIDDEN }

/-- `initializeGridFixed(startX, startY, mineGrid)`: reset flags, install the
mines, compute the numbers, then reveal the starting cell when
`startX >= 0 && startY >= 0`. -/
def initializeGridFixed (W H M : Nat) (startX startY : Int) (mg : List (List Bool)) : Game :=
  let g : Game := { grid := buildGrid W H mg, gameOver := false, youWin := false }
  if 0 ≤ startX && 0 ≤ startY then revealCell W H M g startX startY else g

/-- `enum RuleAction { ACTION_REVEAL_HIDDEN, ACTION_PLACE_FLAG }`. -/
inductive RuleAction where
  | ACTION_REVEAL_HIDDEN
  | ACTION_PLACE_FLAG
deriving DecidableEq, Repr

/-- `struct Rule`.  All `int` members are embedded as `Int` (a loaded
checkpoint can carry arbitrary values; freshly generated rules stay in the
documented ranges). -/
structure Rule where
  numberCondition : Int
  hiddenCondition : Int
  flaggedCondition : Int
  nearEdge : Bool
  hasSpecificPattern : Bool
  extendedScope : Int
  priority : Int
  action : RuleAction
deriving DecidableEq, Repr

/-- `struct Individual { std::vector<Rule> rules; double fitness = 0.0; }`. -/
structure Individual where
  rules : List Rule
  fitness : ℚ := 0
deriving DecidableEq, Repr

/-- `struct FixedGame { int startX; int startY; mineGrid; }`. -/
structure FixedGame where
  startX : Int
  startY : Int
  mineGrid : List (List Bool)
deriving DecidableEq, Repr

/-- The values `-s .. s` of the C++ loop `for (d = -scope; d <= scope; d++)`
(empty for a negative scope, exactly as the C++ loop body never runs). -/
def scopeRange (s : Int) : List Int :=
  (List.range (2 * s + 1).toNat).map (fun (k : Nat) => (k : Int) - s)

/-- The in-bounds cells scanned by a rule of scope `s` around `(x, y)`:
`dy` outer, `dx` inner, exactly the C++ double loop (the centre included). -/
def boxCoords (W H : Nat) (s : Int) (x y : Nat) : List (Nat × Nat) :=
  ((scopeRange s) ×ˢ (scopeRange s)).filterMap fun d =>
    let nx := (x : Int) + d.2
    let ny := (y : Int) + d.1
    if inBounds W H nx ny then some (nx.toNat, ny.toNat) else none

/-- `flagsCount` of the scan of `applyRules`. -/
def flagsCountAt (grid : List (List Cell)) (coords : List (Nat × Nat)) : Nat :=
  (coords.filter (fun cc => isFlagged (cellAt grid cc.1 cc.2))).length

/-- `hiddenCells` of the scan of `applyRules` (the C++ `hiddenCount` equals
its length, the two being incremented together). -/
def hiddenCellsAt (grid : List (List Cell)) (coords : List (Nat × Nat)) : List (Nat × Nat) :=
  coords.filter (fun cc => isHidden (cellAt grid cc.1 cc.2))

/-- The reveal-action inner loop: `for (c : hiddenCells) if (!gameOver && !youWin)
{ revealCell(c); changed = true; }` — the guard is per element, the loop never
breaks early. -/
def revealList (W H M : Nat) : List (Nat × Nat) → Game → Bool → Game × Bool
  | [], g, ch => (g, ch)
  | cc :: rest, g, ch =>
    if g.gameOver || g.youWin then revealList W H M rest g ch
    else revealList W H M rest (revealCell W H M g (cc.1 : Int) (cc.2 : Int)) true

/-- The body of `applyRules` for one rule at one revealed cell `(x, y)`:
condition tests, then the `ACTION_REVEAL_HIDDEN` / `ACTION_PLACE_FLAG`
dispatch. -/
def applyRuleAt (W H M : Nat) (r : Rule) (x y : Nat) (g : Game) (changed : Bool) :
    Game × Bool :=
  let c := cellAt g.grid x y
  if isRevealed c && ((c.neighboringMines : Int) = r.numberCondition : Bool) then
    let box := boxCoords W H r.extendedScope x y
    let hiddenCells := hiddenCellsAt g.grid box
    let hiddenCnt := hiddenCells.length
    let flagsCount := flagsCountAt g.grid box
    if ((hiddenCnt : Int) ≠ r.hiddenCondition : Bool) then (g, changed)
    else if ((flagsCount : Int) ≠ r.flaggedCondition : Bool) then (g, changed)
    else if r.nearEdge &&
        !((x : Int) ≤ 1 || (W : Int) - 2 ≤ (x : Int) ||
          (y : Int) ≤ 1 || (H : Int) - 2 ≤ (y : Int)) then (g, changed)
    else if r.hasSpecificPattern && !(c.neighboringMines = 2 : Bool) then (g, changed)
    else
      match r.action with
      | RuleAction.ACTION_REVEAL_HIDDEN =>
        if ((flagsCount : Int) = r.numberCondition : Bool) && 0 < hiddenCnt then
          revealList W H M hiddenCells g changed
        else (g, changed)
      | RuleAction.ACTION_PLACE_FLAG =>
        if (r.numberCondition - 1 = (flagsCount : Int) : Bool) && hiddenCnt = 1 then
          if g.gameOver || g.youWin then (g, changed)
          else
            let cc := hiddenCells.headD (0, 0)
            (placeFlag W H g (cc.1 : Int) (cc.2 : Int), true)
        else (g, changed)
  else (g, changed)

/-- One rule swept over the whole board, with the
`if (gameOver || youWin) return changed;` test at the top of every cell
iteration. -/
def applyRuleCells (W H M : Nat) (r : Rule) : List (Nat × Nat) → Game → Bool → Game × Bool
  | [], g, ch => (g, ch)
  | cc :: rest, g, ch =>
    if g.gameOver || g.youWin then (g, ch)
    else
      let p := applyRuleAt W H M r cc.1 cc.2 g ch
      applyRuleCells W H M r rest p.1 p.2

/-- The rule loop of `applyRules` over an already-ordered rule list, with the
terminal test at the top of every rule iteration. -/
def applyRulesWith (W H M : Nat) : List Rule → Game → Bool → Game × Bool
  | [], g, ch => (g, ch)
  | r :: rest, g, ch =>
    if g.gameOver || g.youWin then (g, ch)
    else
      let p := applyRuleCells W H M r (allCoords W H) g ch
      applyRulesWith W H M rest p.1 p.2

/-- Insertion step of a stable descending-priority sort: a rule is placed
before the first already-placed rule of smaller-or-equal priority, so
earlier genome rules precede later ones of equal priority. -/
def insertByPriority (r : Rule) : List Rule → List Rule
  | [] => [r]
  | s :: rest =>
    if s.priority ≤ r.priority then r :: s :: rest else s :: insertByPriority r rest

/-- The sorted private copy `sortedRules` of `applyRules`.  The C++ calls
`std::sort` with comparator `a.priority > b.priority`; any permutation that
is non-increasing in priority is an admissible outcome, of which this stable
order is one (the order-dependence of ties is the subject of the claim about
sort stability). -/
def sortedRulesOf (ind : Individual) : List Rule :=
  ind.rules.foldr insertByPriority []

/-- `applyRules(ind, game)`: sort a copy of the genome, sweep it over the
board, report whether any action fired.  The individual is threaded through
to mirror the by-reference `Individual &ind` parameter. -/
def applyRules (W H M : Nat) (ind : Individual) (g : Game) : Individual × Game × Bool :=
  let sortedRules := sortedRulesOf ind
  let p := applyRulesWith W H M sortedRules g false
  (ind, p.1, p.2)

/-- `revealRandomCell`: collect the hidden cells in row-major order and
reveal the one at a uniformly drawn index (`pick` is the raw draw of the
random source; `pick % size` ranges over every possible index). -/
def revealRandomCell (W H M : Nat) (g : Game) (pick : Nat) : Game :=
  let hiddenCells := (allCoords W H).filter (fun cc => isHidden (cellAt g.grid cc.1 cc.2))
  if hiddenCells.isEmpty then g
  else
    let cc := hiddenCells.getD (pick % hiddenCells.length) (0, 0)
    revealCell W H M g (cc.1 : Int) (cc.2 : Int)

/-- State of the playout loop of `evaluateIndividual`: the board, the
`changed` flag, `actionsTaken`, and the random stream with its cursor. -/
structure LoopSt where
  game : Game
  changed : Bool
  actionsTaken : Nat
  rng : Nat → Nat
  k : Nat

/-- Negation of the `while (!gameOver && !youWin && changed)` condition. -/
def loopDone (s : LoopSt) : Bool :=
  s.game.gameOver || s.game.youWin || !s.changed

/-- One iteration of the playout loop: a full rule pass, then the stuck-break
(`revealRandomCell`) when no action fired on a non-terminal board. -/
def loopBody (W H M : Nat) (ρ : List Rule) (s : LoopSt) : LoopSt :=
  let p := applyRulesWith W H M ρ s.game false
  let g := p.1
  let ch := p.2
  let acts := if ch then s.actionsTaken + 1 else s.actionsTaken
  if !ch && !(g.gameOver || g.youWin) then
    { game := revealRandomCell W H M g (s.rng s.k), changed := true,
      actionsTaken := acts + 1, rng := s.rng, k := s.k + 1 }
  else
    { game := g, changed := ch, actionsTaken := acts, rng := s.rng, k := s.k }

/-- The playout loop, iterated while the `while` condition holds, with an
iteration budget (the termination theorem shows `W * H` iterations always
suffice, so the budget is not a behavioural restriction). -/
def runLoop (W H M : Nat) (ρ : List Rule) : Nat → LoopSt → LoopSt
  | 0, s => s
  | n+1, s => if loopDone s then s else runLoop W H M ρ n (loopBody W H M ρ s)

/-- One whole `(individual, scenario)` playout of `evaluateIndividual`:
initialize the board from the scenario and run the loop (the rule list `ρ`
is the sorted genome, computed once since the genome never changes). -/
def playGame (W H M : Nat) (ρ : List Rule) (fg : FixedGame) (rng : Nat → Nat) (k : Nat) :
    LoopSt :=
  runLoop W H M ρ (W * H)
    { game := initializeGridFixed W H M fg.startX fg.startY fg.mineGrid,
      changed := true, actionsTaken := 0, rng := rng, k := k }

/-- The `safeRevealed` counting loop of `evaluateIndividual`: non-mine cells
in the `REVEALED` state. -/
def safeRevealedCount (W H : Nat) (g : Game) : Nat :=
  ((allCoords W H).filter
    (fun cc => !(cellAt g.grid cc.1 cc.2).isMine && isRevealed (cellAt g.grid cc.1 cc.2))).length

/-- The `correctFlags` counting loop of `evaluateIndividual`: mine cells in
the `FLAGGED` state. -/
def correctFlagsCount (W H : Nat) (g : Game) : Nat :=
  ((allCoords W H).filter
    (fun cc => (cellAt g.grid cc.1 cc.2).isMine && isFlagged (cellAt g.grid cc.1 cc.2))).length

/-- The `minesRevealed` counting loop of `evaluateIndividual`: mine cells in
the `REVEALED` state. -/
def minesRevealedCount (W H : Nat) (g : Game) : Nat :=
  ((allCoords W H).filter
    (fun cc => (cellAt g.grid cc.1 cc.2).isMine && isRevealed (cellAt g.grid cc.1 cc.2))).length

/-- The score of one finished playout, exactly the weights of the C++:
`safeRevealed + 5*correctFlags - 50*minesRevealed - 0.1*actionsTaken`,
plus `2000` when the game was won.  The C++ `double` arithmetic is modelled
exactly over `ℚ`. -/
def scoreOf (W H : Nat) (g : Game) (actionsTaken : Nat) : ℚ :=
  (safeRevealedCount W H g : ℚ) + (correctFlagsCount W H g : ℚ) * 5
    - (minesRevealedCount W H g : ℚ) * 50 - (actionsTaken : ℚ) * (1/10)
    + (if g.youWin then 2000 else 0)

/-- The accumulation loop of `evaluateIndividual`: play every selected
scenario in order (the random cursor threads from one playout to the next)
and sum the scores. -/
def evalGamesAux (W H M : Nat) (ρ : List Rule) (rng : Nat → Nat) :
    List FixedGame → Nat → ℚ → ℚ × Nat
  | [], k, total => (total, k)
  | fg :: rest, k, total =>
    let s := playGame W H M ρ fg rng k
    evalGamesAux W H M ρ rng rest s.k (total + scoreOf W H s.game s.actionsTaken)

/-- The sequence of finished playout states of one `evaluateIndividual`
call, scenario by scenario, the random cursor threading from each playout to
the next exactly as in `evalGamesAux`. -/
def playoutStates (W H M : Nat) (ρ : List Rule) (rng : Nat → Nat) :
    List FixedGame → Nat → List LoopSt
  | [], _ => []
  | fg :: rest, k =>
    let s := playGame W H M ρ fg rng k
    s :: playoutStates W H M ρ rng rest s.k

/-- `evaluateIndividual(ind, selectedGames, ...)`: average the per-scenario
scores (`totalScore / selectedGames.size()` — performed unconditionally, an
empty sample dividing by zero).  The individual is threaded through to
mirror the by-reference parameter; the atomic win/game counters are
reporting-only and are not modelled. -/
def evaluateIndividual (W H M : Nat) (ind : Individual) (selectedGames : List FixedGame)
    (rng : Nat → Nat) (k : Nat) : Individual × ℚ :=
  let ρ := sortedRulesOf ind
  let p := evalGamesAux W H M ρ rng selectedGames k 0
  (ind, p.1 / (selectedGames.length : ℚ))

/-- A finite sequence of `revealCell` operations applied in order. -/
def applyReveals (W H M : Nat) (g : Game) (l : List (Int × Int)) : Game :=
  l.foldl (fun g cc => revealCell W H M g cc.1 cc.2) g

/-- The admissible results of the `std::sort` call of `applyRules`
(comparator `a.priority > b.priority`): any permutation of the genome that is
non-increasing in priority.  `std::sort` guarantees nothing more — in
particular not stability. -/
def SortedByPriority (genome ρ : List Rule) : Prop :=
  genome.Perm ρ ∧ ρ.Pairwise (fun a b => b.priority ≤ a.priority)

/-- The grid is an `H`-row, `W`-column matrix. -/
def GridDims (W H : Nat) (grid : List (List Cell)) : Prop :=
  grid.length = H ∧ ∀ y, y < H → (grid.getD y []).length = W

/-- True number of mine-bearing cells within the 8-neighbourhood of `(x, y)`
on the current grid (the centre offset contributes nothing for a non-mine
cell). -/
def mineNbrCountG (W H : Nat) (grid : List (List Cell)) (x y : Nat) : Nat :=
  (nbrOffsets.filter (fun o =>
    let nx := (x : Int) + o.1
    let ny := (y : Int) + o.2
    inBounds W H nx ny && (cellAt grid nx.toNat ny.toNat).isMine)).length

/-- Every non-mine cell carries the true neighbouring-mine count (established
by `initializeGridFixed`, and never invalidated: reveals and flags only
change states). -/
def Truthful (W H : Nat) (grid : List (List Cell)) : Prop :=
  ∀ x y, x < W → y < H → (cellAt grid x y).isMine = false →
    (cellAt grid x y).neighboringMines = mineNbrCountG W H grid x y

/-- Every flagged cell is a mine. -/
def FlagsOnMines (grid : List (List Cell)) : Prop :=
  ∀ x y, isFlagged (cellAt grid x y) = true → (cellAt grid x y).isMine = true

/-- No mine cell is revealed. -/
def NoRevealedMine (grid : List (List Cell)) : Prop :=
  ∀ x y, (cellAt grid x y).isMine = true → isRevealed (cellAt grid x y) = false

/-- Two grids of identical shape whose cells agree on everything except
possibly their states.  Every board mutation of the engine (`revealCell`,
`placeFlag`, `checkWinCondition`) relates its input and output grids this
way. -/
def StateOnly (g1 g2 : List (List Cell)) : Prop :=
  g1.length = g2.length ∧
  (∀ y, (g1.getD y []).length = (g2.getD y []).length) ∧
  (∀ x y, (cellAt g1 x y).isMine = (cellAt g2 x y).isMine ∧
    (cellAt g1 x y).neighboringMines = (cellAt g2 x y).neighboringMines)

/-- The reachable-state invariant of a single game driven from
`initializeGridFixed` by the evaluator. -/
def GameInv (W H M : Nat) (g : Game) : Prop :=
  GridDims W H g.grid ∧ Truthful W H g.grid ∧
  countCoords W H g.grid (fun c => c.isMine) = M ∧
  FlagsOnMines g.grid ∧
  (g.gameOver = false → NoRevealedMine g.grid) ∧
  (g.gameOver = false → g.youWin = false →
    (countCoords W H g.grid isRevealed : Int) ≠ (W : Int) * (H : Int) - (M : Int))

/-- A scenario the fixed-game bank can produce for a `W×H`, `M`-mine board:
the bitmap is an `H×W` matrix with exactly `M` mines, the start cell is in
bounds, and no mine lies in the 3×3 safe zone around the start (only the
start cell itself being mine-free is needed by the proofs). -/
def ValidScenario (W H M : Nat) (fg : FixedGame) : Prop :=
  fg.mineGrid.length = H ∧ (∀ y, y < H → (fg.mineGrid.getD y []).length = W) ∧
  ((allCoords W H).filter (fun cc => bmAt fg.mineGrid cc.1 cc.2)).length = M ∧
  0 ≤ fg.startX ∧ fg.startX < (W : Int) ∧ 0 ≤ fg.startY ∧ fg.startY < (H : Int) ∧
  bmAt fg.mineGrid fg.startX.toNat fg.startY.toNat = false

/-- A default-constructed `Rule` (the C++ members are uninitialized after
`resize`; the crossover overwrites every position before use, which the
crossover theorem proves). -/
def defaultRule : Rule :=
  { numberCondition := 0, hiddenCondition := 0, flaggedCondition := 0,
    nearEdge := false, hasSpecificPattern := false, extendedScope := 0,
    priority := 0, action := RuleAction.ACTION_REVEAL_HIDDEN }

/-- `for (i = lo; i < lo + n; i++) dst[i] = src[i];` — the block-copy loop of
`crossover`. -/
def copyRange (src : List Rule) : Nat → Nat → List Rule → List Rule
  | _, 0, dst => dst
  | lo, n+1, dst => copyRange src (lo+1) n (dst.set lo (src.getD lo defaultRule))

/-- Insertion step of an ascending sort of the cut points (the points are
distinct, so this computes the unique sorted order `std::sort` produces). -/
def insertAsc (p : Nat) : List Nat → List Nat
  | [] => [p]
  | q :: rest => if p ≤ q then p :: q :: rest else q :: insertAsc p rest

/-- Sort the cut points ascending. -/
def sortPoints (points : List Nat) : List Nat :=
  points.foldr insertAsc []

/-- State of the crossover block loop: the two offspring genomes under
construction, `last`, and `toggle`. -/
structure CrossSt where
  o1 : List Rule
  o2 : List Rule
  last : Nat
  toggle : Bool

/-- One iteration of the crossover loop `for (auto point : points)`. -/
def crossStep (p1 p2 : List Rule) (st : CrossSt) (point : Nat) : CrossSt :=
  let st1 :=
    if st.toggle then
      { st with o1 := copyRange p2 st.last (point - st.last) st.o1,
                o2 := copyRange p1 st.last (point - st.last) st.o2 }
    else
      { st with o1 := copyRange p1 st.last (point - st.last) st.o1,
                o2 := copyRange p2 st.last (point - st.last) st.o2 }
  { st1 with toggle := !st1.toggle, last := point }

/-- `crossover(p1, p2, o1, o2)` given the drawn distinct cut points (the
rejection loop drawing them is abstracted into the `points` argument; its
postcondition — between `1` and `R-1` distinct values of `[1, R-1]` — is a
hypothesis of the crossover theorems).  The points are sorted, the genome is
copied block-wise with the origin parents swapped at every cut point, and
the tail block runs to `R`. -/
def crossover (R : Nat) (p1 p2 : Individual) (points : List Nat) : Individual × Individual :=
  let sorted := sortPoints points
  let init : CrossSt :=
    { o1 := List.replicate R defaultRule, o2 := List.replicate R defaultRule,
      last := 0, toggle := false }
  let st := sorted.foldl (crossStep p1.rules p2.rules) init
  let o1 :=
    if st.toggle then copyRange p2.rules st.last (R - st.last) st.o1
    else copyRange p1.rules st.last (R - st.last) st.o1
  let o2 :=
    if st.toggle then copyRange p1.rules st.last (R - st.last) st.o2
    else copyRange p2.rules st.last (R - st.last) st.o2
  ({ rules := o1, fitness := 0 }, { rules := o2, fitness := 0 })

/-- One field of the binary checkpoint stream.  The C++ writes each struct
member with a separate fixed-width `write` and reads it back with a matching
`read`; the embedding keeps the stream as the sequence of written fields. -/
inductive FileField where
  | fInt : Int → FileField
  | fBool : Bool → FileField
  | fDouble : ℚ → FileField
  | fAction : RuleAction → FileField
deriving DecidableEq, Repr

/-- The eight members of one `Rule`, in the order `savePopulation` writes
them. -/
def saveRule (r : Rule) : List FileField :=
  [FileField.fInt r.numberCondition, FileField.fInt r.hiddenCondition,
   FileField.fInt r.flaggedCondition, FileField.fBool r.nearEdge,
   FileField.fBool r.hasSpecificPattern, FileField.fInt r.extendedScope,
   FileField.fInt r.priority, FileField.fAction r.action]

/-- One individual as written by `savePopulation`: rule count, rules,
fitness. -/
def saveIndividual (ind : Individual) : List FileField :=
  FileField.fInt (ind.rules.length : Int) :: (ind.rules.flatMap saveRule ++ [FileField.fDouble ind.fitness])

/-- `savePopulation`: population size, then every individual. -/
def savePopulation (population : List Individual) : List FileField :=
  FileField.fInt (population.length : Int) :: population.flatMap saveIndividual

/-- One `read` of an `int` field; any other field shape is a failed read. -/
def readInt : List FileField → Option (Int × List FileField)
  | FileField.fInt i :: rest => some (i, rest)
  | _ => none

def readBool : List FileField → Option (Bool × List FileField)
  | FileField.fBool b :: rest => some (b, rest)
  | _ => none

def readDouble : List FileField → Option (ℚ × List FileField)
  | FileField.fDouble q :: rest => some (q, rest)
  | _ => none

def readAction : List FileField → Option (RuleAction × List FileField)
  | FileField.fAction a :: rest => some (a, rest)
  | _ => none

/-- The eight member reads of one `Rule` in `loadPopulation`. -/
def loadRule (s : List FileField) : Option (Rule × List FileField) := do
  let (n, s) ← readInt s
  let (h, s) ← readInt s
  let (f, s) ← readInt s
  let (ne, s) ← readBool s
  let (hp, s) ← readBool s
  let (sc, s) ← readInt s
  let (pr, s) ← readInt s
  let (ac, s) ← readAction s
  pure ({ numberCondition := n, hiddenCondition := h, flaggedCondition := f,
          nearEdge := ne, hasSpecificPattern := hp, extendedScope := sc,
          priority := pr, action := ac }, s)

/-- `for (j = 0; j < numRules; j++)` rule reads. -/
def loadRules : Nat → List FileField → Option (List Rule × List FileField)
  | 0, s => some ([], s)
  | n+1, s => do
    let (r, s) ← loadRule s
    let (rs, s) ← loadRules n s
    pure (r :: rs, s)

/-- One individual read by `loadPopulation` under configured rule count `R`:
the recorded rule count must equal `R` or the load fails (the C++ prints a
warning and returns `false`). -/
def loadIndividual (R : Nat) (s : List FileField) : Option (Individual × List FileField) := do
  let (numRules, s) ← readInt s
  if numRules = (R : Int) then
    let (rs, s) ← loadRules R s
    let (fit, s) ← readDouble s
    pure ({ rules := rs, fitness := fit }, s)
  else none

/-- `Individual()` as `population.assign(popSize, Individual())` constructs
it: empty genome, fitness `0.0`. -/
def defaultIndividual : Individual :=
  { rules := [], fitness := 0 }

/-- The `for (i = 0; i < popSize; i++)` loop of `loadPopulation` over the
freshly assigned vector: `done` is the prefix already overwritten with
loaded individuals, and the not-yet-visited positions still hold the
`Individual()` defaults the `assign` put there.  A failed or mismatched
individual read returns `false` with the vector in exactly that
half-overwritten state. -/
def loadIndividualsLoop (R : Nat) : Nat → List Individual → List FileField →
    Bool × List Individual
  | 0, done, _ => (true, done)
  | n+1, done, s =>
    match loadIndividual R s with
    | none => (false, done ++ List.replicate (n+1) defaultIndividual)
    | some (ind, s2) => loadIndividualsLoop R n (done ++ [ind]) s2

/-- `loadPopulation(population, ...)` under configured parameters `P`
(`POPULATION_SIZE`) and `R` (`NUM_RULES`), the by-reference vector made
explicit: the recorded size is rejected unless it equals `P` — the vector
still untouched — and only then does `population.assign(popSize,
Individual())` fill it with `P` defaults before the individual loop
overwrites them in order.  The `Bool` is the C++ return value (`false` is
the graceful failure: warn and return, never abort); the list is the state
the caller's vector is left in, which on a mid-loop failure keeps the
remaining defaults. -/
def loadPopulation (P R : Nat) (file : List FileField)
    (population : List Individual) : Bool × List Individual :=
  match readInt file with
  | none => (false, population)
  | some (popSize, s) =>
    if popSize = (P : Int) then loadIndividualsLoop R P [] s
    else (false, population)

/-- `createRandomIndividual`: every field drawn uniformly from its domain.
The eight draws of rule `i` are the stream values `8*i .. 8*i+7`
(`dis(a, b)` is modelled as `a + draw % (b - a + 1)`). -/
def createRandomIndividual (R : Nat) (rng : Nat → Nat) : Individual :=
  { rules := (List.range R).map (fun i =>
      { numberCondition := ((rng (8*i) % 9 : Nat) : Int),
        hiddenCondition := ((rng (8*i+1) % 9 : Nat) : Int),
        flaggedCondition := ((rng (8*i+2) % 9 : Nat) : Int),
        nearEdge := rng (8*i+3) % 2 = 1,
        hasSpecificPattern := rng (8*i+4) % 2 = 1,
        extendedScope := ((1 + rng (8*i+5) % 2 : Nat) : Int),
        priority := ((1 + rng (8*i+6) % 10 : Nat) : Int),
        action := if rng (8*i+7) % 2 = 0 then RuleAction.ACTION_REVEAL_HIDDEN
                  else RuleAction.ACTION_PLACE_FLAG }),
    fitness := 0 }

/-- Step 2 of `main`: run `loadPopulation` on the just-declared (empty)
population vector; when it reports failure, `main` prints a notice and
`push_back`s `POPULATION_SIZE` fresh random individuals — without clearing
whatever state the failed load left in the vector. -/
def initialPopulationFrom (P R : Nat) (file : List FileField) (rng : Nat → Nat → Nat) :
    List Individual :=
  match loadPopulation P R file [] with
  | (true, pop) => pop
  | (false, pop) => pop ++ (List.range P).map (fun i => createRandomIndividual R (rng i))

/-- Selection sampling (the `std::sample` of `selectFixedGames` over the
bank): walk the bank keeping `m` slots to fill among `n` remaining elements
and take the current one when `draw % n < m`; the relative bank order is
preserved.  On an empty bank the function returns the empty sample (the C++
early-returns the empty vector). -/
def sampleSeq (rng : Nat → Nat) : List FixedGame → Nat → Nat → List FixedGame
  | [], _, _ => []
  | fg :: rest, m, k =>
    if m = 0 then []
    else if rng k % (rest.length + 1) < m then fg :: sampleSeq rng rest (m-1) (k+1)
    else sampleSeq rng rest m (k+1)

/-- `selectFixedGames(numGames)` over a bank: empty bank gives an empty
sample, with no error reported. -/
def selectFixedGames (bank : List FixedGame) (numGames : Nat) (rng : Nat → Nat) :
    List FixedGame :=
  if bank.isEmpty then [] else sampleSeq rng bank numGames 0

/-! ### Generic list and grid lemmas -/

theorem getD_set_self {α : Type} (l : List α) (i : Nat) (a d : α) (h : i < l.length) :
    (l.set i a).getD i d = a := by
  simp [List.getD_eq_getElem?_getD, List.getElem?_set_self, h]

theorem getD_set_ne {α : Type} (l : List α) (i j : Nat) (a d : α) (h : i ≠ j) :
    (l.set i a).getD j d = l.getD j d := by
  simp [List.getD_eq_getElem?_getD, List.getElem?_set_ne h]

theorem filter_length_update {α : Type} (l : List α) (a : α) (q q' : α → Bool)
    (hnd : l.Nodup) (ha : a ∈ l) (hagree : ∀ b ∈ l, b ≠ a → q b = q' b) :
    (l.filter q').length + (if q a then 1 else 0)
      = (l.filter q).length + (if q' a then 1 else 0) := by
  induction l with
  | nil => cases ha
  | cons h t ih =>
    rcases List.mem_cons.mp ha with rfl | hat
    · have hta : a ∉ t := (List.nodup_cons.mp hnd).1
      have hft : t.filter q' = t.filter q := by
        refine List.filter_congr (fun b hb => ?_)
        exact (hagree b (List.mem_cons_of_mem _ hb) (fun hba => hta (hba ▸ hb))).symm
      simp only [List.filter_cons, hft]
      by_cases hq : q a <;> by_cases hq' : q' a <;> simp [hq, hq']
    · have hha : h ≠ a := by
        rintro rfl
        exact (List.nodup_cons.mp hnd).1 hat
      have hqh : q h = q' h := hagree h (List.mem_cons_self h t) hha
      have hrec := ih (List.nodup_cons.mp hnd).2 hat
        (fun b hb hba => hagree b (List.mem_cons_of_mem _ hb) hba)
      simp only [List.filter_cons, ← hqh]
      by_cases hq : q h <;> simp [hq] <;> omega

theorem mem_allCoords {W H : Nat} {cc : Nat × Nat} :
    cc ∈ allCoords W H ↔ cc.1 < W ∧ cc.2 < H := by
  unfold allCoords
  constructor
  · intro h
    rcases List.mem_map.mp h with ⟨yx, hyx, rfl⟩
    have hp := List.mem_product.mp hyx
    exact ⟨List.mem_range.mp hp.2, List.mem_range.mp hp.1⟩
  · intro h
    refine List.mem_map.mpr ⟨(cc.2, cc.1), ?_, rfl⟩
    exact List.mem_product.mpr ⟨List.mem_range.mpr h.2, List.mem_range.mpr h.1⟩

theorem nodup_allCoords {W H : Nat} : (allCoords W H).Nodup := by
  refine ((List.nodup_range H).product (List.nodup_range W)).map ?_
  intro a b hab
  have h1 : (a.2, a.1) = (b.2, b.1) := hab
  have := Prod.mk.injEq .. ▸ h1
  exact Prod.ext (congrArg Prod.snd h1) (congrArg Prod.fst h1)

theorem length_allCoords (W H : Nat) : (allCoords W H).length = W * H := by
  unfold allCoords
  rw [List.length_map, List.length_product, List.length_range, List.length_range,
    Nat.mul_comm]

theorem cellAt_setCellState_self (grid : List (List Cell)) (x y : Nat) (st : CellState)
    (hy : y < grid.length) (hx : x < (grid.getD y []).length) :
    cellAt (setCellState grid x y st) x y = { cellAt grid x y with state := st } := by
  unfold cellAt setCellState
  rw [getD_set_self _ _ _ _ hy]
  rw [getD_set_self _ _ _ _ hx]
  rfl

theorem cellAt_setCellState_ne (grid : List (List Cell)) (x y x' y' : Nat) (st : CellState)
    (h : ¬(x' = x ∧ y' = y)) :
    cellAt (setCellState grid x y st) x' y' = cellAt grid x' y' := by
  unfold cellAt setCellState
  by_cases hy : y' = y
  · subst hy
    have hx : x' ≠ x := fun hxx => h ⟨hxx, rfl⟩
    by_cases hylen : y' < grid.length
    · rw [getD_set_self _ _ _ _ hylen, getD_set_ne _ _ _ _ _ (fun he => hx he.symm)]
    · rw [List.set_eq_of_length_le (Nat.le_of_not_lt hylen)]
  · rw [getD_set_ne _ _ _ _ _ (fun he => hy he.symm)]

/-- The state write of `setCellState` never changes mine placement or the
stored neighbour counts, nor the grid shape. -/
theorem stateOnly_setCellState (grid : List (List Cell)) (x y : Nat) (st : CellState) :
    StateOnly grid (setCellState grid x y st) := by
  refine ⟨by simp [setCellState], fun yy => ?_, fun xx yy => ?_⟩
  · by_cases hy : yy = y
    · subst hy
      by_cases hylen : yy < grid.length
      · rw [setCellState, getD_set_self _ _ _ _ hylen, List.length_set]
      · rw [setCellState, List.set_eq_of_length_le (Nat.le_of_not_lt hylen)]
    · rw [setCellState, getD_set_ne _ _ _ _ _ (fun he => hy he.symm)]
  · by_cases hxy : xx = x ∧ yy = y
    · obtain ⟨rfl, rfl⟩ := hxy
      by_cases hylen : yy < grid.length
      · by_cases hxlen : xx < (grid.getD yy []).length
        · rw [cellAt_setCellState_self grid xx yy st hylen hxlen]
          exact ⟨rfl, rfl⟩
        · unfold cellAt setCellState
          rw [getD_set_self _ _ _ _ hylen, List.set_eq_of_length_le (Nat.le_of_not_lt hxlen)]
          exact ⟨rfl, rfl⟩
      · unfold cellAt setCellState
        rw [List.set_eq_of_length_le (Nat.le_of_not_lt hylen)]
        exact ⟨rfl, rfl⟩
    · rw [cellAt_setCellState_ne grid x y xx yy st hxy]
      exact ⟨rfl, rfl⟩

theorem stateOnly_refl (g : List (List Cell)) : StateOnly g g :=
  ⟨rfl, fun _ => rfl, fun _ _ => ⟨rfl, rfl⟩⟩

theorem stateOnly_trans {g1 g2 g3 : List (List Cell)} (h1 : StateOnly g1 g2)
    (h2 : StateOnly g2 g3) : StateOnly g1 g3 := by
  refine ⟨h1.1.trans h2.1, fun y => (h1.2.1 y).trans (h2.2.1 y), fun x y => ?_⟩
  exact ⟨(h1.2.2 x y).1.trans (h2.2.2 x y).1, (h1.2.2 x y).2.trans (h2.2.2 x y).2⟩

theorem gridDims_of_stateOnly {W H : Nat} {g1 g2 : List (List Cell)}
    (hd : GridDims W H g1) (hso : StateOnly g1 g2) : GridDims W H g2 :=
  ⟨hso.1 ▸ hd.1, fun y hy => (hso.2.1 y) ▸ hd.2 y hy⟩

theorem mineNbrCountG_of_stateOnly {W H : Nat} {g1 g2 : List (List Cell)}
    (hso : StateOnly g1 g2) (x y : Nat) :
    mineNbrCountG W H g1 x y = mineNbrCountG W H g2 x y := by
  unfold mineNbrCountG
  refine congrArg List.length (List.filter_congr (fun o _ => ?_))
  simp only [(hso.2.2 ((x : Int) + o.1).toNat ((y : Int) + o.2).toNat).1]

theorem truthful_of_stateOnly {W H : Nat} {g1 g2 : List (List Cell)}
    (ht : Truthful W H g1) (hso : StateOnly g1 g2) : Truthful W H g2 := by
  intro x y hx hy hm
  rw [← (hso.2.2 x y).2, ← mineNbrCountG_of_stateOnly hso x y]
  exact ht x y hx hy (((hso.2.2 x y).1).trans hm)

theorem mineCount_of_stateOnly {W H : Nat} {g1 g2 : List (List Cell)}
    (hso : StateOnly g1 g2) :
    countCoords W H g1 (fun c => c.isMine) = countCoords W H g2 (fun c => c.isMine) := by
  unfold countCoords
  exact congrArg List.length (List.filter_congr (fun cc _ => (hso.2.2 cc.1 cc.2).1))

theorem countCoords_congr {W H : Nat} {grid grid2 : List (List Cell)}
    {p q : Cell → Bool}
    (h : ∀ x y, x < W → y < H → p (cellAt grid x y) = q (cellAt grid2 x y)) :
    countCoords W H grid p = countCoords W H grid2 q := by
  unfold countCoords
  refine congrArg List.length (List.filter_congr ?_)
  intro cc hcc
  have hm := mem_allCoords.mp hcc
  exact h cc.1 cc.2 hm.1 hm.2

theorem countCoords_setCellState {W H : Nat} {grid : List (List Cell)}
    (hd : GridDims W H grid) (p : Cell → Bool) {x y : Nat} (hx : x < W) (hy : y < H)
    (st : CellState) :
    countCoords W H (setCellState grid x y st) p + (if p (cellAt grid x y) then 1 else 0)
      = countCoords W H grid p + (if p { cellAt grid x y with state := st } then 1 else 0) := by
  have hmem : (x, y) ∈ allCoords W H := mem_allCoords.mpr ⟨hx, hy⟩
  have hbz : y < grid.length := by rw [hd.1]; exact hy
  have hbx : x < (grid.getD y []).length := by rw [hd.2 y hy]; exact hx
  have hset := cellAt_setCellState_self grid x y st hbz hbx
  have hupd := filter_length_update (allCoords W H) (x, y)
    (fun cc => p (cellAt grid cc.1 cc.2))
    (fun cc => p (cellAt (setCellState grid x y st) cc.1 cc.2))
    nodup_allCoords hmem
    (fun b _ hb => by
      have hne : ¬(b.1 = x ∧ b.2 = y) := by
        intro hbb
        exact hb (Prod.ext hbb.1 hbb.2)
      show p (cellAt grid b.1 b.2) = p (cellAt (setCellState grid x y st) b.1 b.2)
      rw [cellAt_setCellState_ne grid x y b.1 b.2 st hne])
  unfold countCoords
  simpa [hset] using hupd

/-! ### Lemmas about the primitive board operations -/

theorem checkWin_grid (W H M : Nat) (g : Game) :
    (checkWinCondition W H M g).grid = g.grid := by
  simp only [checkWinCondition]
  split <;> rfl

theorem checkWin_gameOver (W H M : Nat) (g : Game) :
    (checkWinCondition W H M g).gameOver = g.gameOver := by
  simp only [checkWinCondition]
  split <;> rfl

theorem checkWin_youWin_mono (W H M : Nat) (g : Game) (h : g.youWin = true) :
    (checkWinCondition W H M g).youWin = true := by
  simp only [checkWinCondition]
  split <;> simp [h]

/-- A board just returned by `checkWinCondition` with the win flag still off
cannot have hit the winning count: the revealed count differs from
`W*H - M`. -/
theorem checkWin_notWin {W H M : Nat} {g : Game}
    (h : (checkWinCondition W H M g).youWin = false) :
    (countCoords W H g.grid isRevealed : Int) ≠ (W : Int) * (H : Int) - (M : Int) := by
  intro he
  simp only [checkWinCondition] at h
  rw [if_pos he] at h
  simp at h

/-- If `checkWinCondition` turned the win flag on, either it was already on
or the revealed count equals `W*H - M` right now. -/
theorem checkWin_win_cases {W H M : Nat} {g : Game}
    (h : (checkWinCondition W H M g).youWin = true) :
    g.youWin = true ∨
      (countCoords W H g.grid isRevealed : Int) = (W : Int) * (H : Int) - (M : Int) := by
  simp only [checkWinCondition] at h
  by_cases hc : (countCoords W H g.grid isRevealed : Int) = (W : Int) * (H : Int) - (M : Int)
  · exact Or.inr hc
  · rw [if_neg hc] at h
    exact Or.inl h

theorem placeFlag_gameOver (W H : Nat) (g : Game) (x y : Int) :
    (placeFlag W H g x y).gameOver = g.gameOver := by
  unfold placeFlag
  split
  · rfl
  split <;> rfl

theorem placeFlag_youWin (W H : Nat) (g : Game) (x y : Int) :
    (placeFlag W H g x y).youWin = g.youWin := by
  unfold placeFlag
  split
  · rfl
  split <;> rfl

theorem placeFlag_stateOnly (W H : Nat) (g : Game) (x y : Int) :
    StateOnly g.grid (placeFlag W H g x y).grid := by
  unfold placeFlag
  split
  · exact stateOnly_refl _
  split
  · exact stateOnly_setCellState ..
  · exact stateOnly_refl _

/-- `placeFlag` never creates a flag anywhere but at its target. -/
theorem placeFlag_flag_origin (W H : Nat) (g : Game) (x y : Int) (p q : Nat)
    (h : isFlagged (cellAt (placeFlag W H g x y).grid p q) = true) :
    isFlagged (cellAt g.grid p q) = true ∨ (p = x.toNat ∧ q = y.toNat) := by
  by_cases hpq : p = x.toNat ∧ q = y.toNat
  · exact Or.inr hpq
  · left
    unfold placeFlag at h
    split at h
    · exact h
    split at h
    · rwa [cellAt_setCellState_ne _ _ _ _ _ _ hpq] at h
    · exact h

/-- The target cell of a non-trivial `placeFlag` keeps its mine bit. -/
theorem flagsOnMines_placeFlag {W H : Nat} {g : Game} {x y : Int}
    (hf : FlagsOnMines g.grid)
    (hm : (cellAt g.grid x.toNat y.toNat).isMine = true) :
    FlagsOnMines (placeFlag W H g x y).grid := by
  intro p q hflag
  have hso := placeFlag_stateOnly W H g x y
  rcases placeFlag_flag_origin W H g x y p q hflag with hold | ⟨rfl, rfl⟩
  · rw [← (hso.2.2 p q).1]
    exact hf p q hold
  · rw [← (hso.2.2 _ _).1]
    exact hm

/-- A reveal write (`setCellState _ REVEALED`) never creates a flag. -/
theorem isFlagged_setRevealed (grid : List (List Cell)) (x y p q : Nat)
    (h : isFlagged (cellAt (setCellState grid x y REVEALED) p q) = true) :
    isFlagged (cellAt grid p q) = true := by
  by_cases hpq : p = x ∧ q = y
  · obtain ⟨rfl, rfl⟩ := hpq
    by_cases hylen : q < grid.length
    · by_cases hxlen : p < (grid.getD q []).length
      · rw [cellAt_setCellState_self _ _ _ _ hylen hxlen] at h
        simp [isFlagged] at h
      · unfold cellAt setCellState at h
        rw [getD_set_self _ _ _ _ hylen,
          List.set_eq_of_length_le (Nat.le_of_not_lt hxlen)] at h
        exact h
    · unfold cellAt setCellState at h
      rw [List.set_eq_of_length_le (Nat.le_of_not_lt hylen)] at h
      exact h
  · rwa [cellAt_setCellState_ne _ _ _ _ _ _ hpq] at h

/-- Closure of a predicate under single reveals lifts to the eight flood
calls. -/
theorem revealFlood_pres (W H M fuel : Nat) (P : Game → Prop)
    (hstep : ∀ g x y, P g → P (revealCellF W H M fuel g x y)) :
    ∀ g x y, P g → P (revealFlood W H M fuel g x y) := by
  intro g x y hg
  unfold revealFlood
  exact hstep _ _ _ (hstep _ _ _ (hstep _ _ _ (hstep _ _ _ (hstep _ _ _
    (hstep _ _ _ (hstep _ _ _ (hstep _ _ _ (hstep _ _ _ hg))))))))

theorem revealCellF_stateOnly (W H M : Nat) :
    ∀ (fuel : Nat) (g : Game) (x y : Int),
      StateOnly g.grid (revealCellF W H M fuel g x y).grid := by
  intro fuel
  induction fuel with
  | zero => intro g x y; rw [revealCellF]; exact stateOnly_refl _
  | succ n ih =>
    intro g x y
    rw [revealCellF]
    split
    · exact stateOnly_refl _
    split
    · split
      · exact stateOnly_setCellState ..
      · rw [checkWin_grid]
        split
        · exact revealFlood_pres W H M n (fun h => StateOnly g.grid h.grid)
            (fun g' xx yy hP => stateOnly_trans hP (ih g' xx yy)) _ x y
            (stateOnly_setCellState ..)
        · exact stateOnly_setCellState ..
    · exact stateOnly_refl _

theorem revealCellF_gameOver_mono (W H M : Nat) :
    ∀ (fuel : Nat) (g : Game) (x y : Int), g.gameOver = true →
      (revealCellF W H M fuel g x y).gameOver = true := by
  intro fuel
  induction fuel with
  | zero => intro g x y h; rw [revealCellF]; exact h
  | succ n ih =>
    intro g x y h
    rw [revealCellF]
    split
    · exact h
    split
    · split
      · rfl
      · rw [checkWin_gameOver]
        split
        · exact revealFlood_pres W H M n (fun g' => g'.gameOver = true)
            (fun g' xx yy hP => ih g' xx yy hP) _ x y h
        · exact h
    · exact h

theorem revealCellF_youWin_mono (W H M : Nat) :
    ∀ (fuel : Nat) (g : Game) (x y : Int), g.youWin = true →
      (revealCellF W H M fuel g x y).youWin = true := by
  intro fuel
  induction fuel with
  | zero => intro g x y h; rw [revealCellF]; exact h
  | succ n ih =>
    intro g x y h
    rw [revealCellF]
    split
    · exact h
    split
    · split
      · exact h
      · refine checkWin_youWin_mono _ _ _ _ ?_
        split
        · exact revealFlood_pres W H M n (fun g' => g'.youWin = true)
            (fun g' xx yy hP => ih g' xx yy hP) _ x y h
        · exact h
    · exact h

/-- Reveals never create flags (per position). -/
theorem revealCellF_flag_origin (W H M : Nat) :
    ∀ (fuel : Nat) (g : Game) (x y : Int) (p q : Nat),
      isFlagged (cellAt (revealCellF W H M fuel g x y).grid p q) = true →
      isFlagged (cellAt g.grid p q) = true := by
  intro fuel
  induction fuel with
  | zero => intro g x y p q h; rw [revealCellF] at h; exact h
  | succ n ih =>
    intro g x y p q h
    rw [revealCellF] at h
    split at h
    · exact h
    split at h
    · split at h
      · exact isFlagged_setRevealed _ _ _ _ _ h
      · rw [checkWin_grid] at h
        split at h
        · have hfl := revealFlood_pres W H M n
            (fun g' => isFlagged (cellAt g'.grid p q) = true →
              isFlagged (cellAt (setCellState g.grid x.toNat y.toNat REVEALED) p q) = true)
            (fun g' xx yy hP hrev => hP (ih g' xx yy p q hrev)) _ x y (fun hz => hz) h
          exact isFlagged_setRevealed _ _ _ _ _ hfl
        · exact isFlagged_setRevealed _ _ _ _ _ h
    · exact h

theorem isHidden_eq_true {c : Cell} : isHidden c = true ↔ c.state = HIDDEN := by
  cases h : c.state <;> simp [isHidden, h]

theorem isRevealed_eq_true {c : Cell} : isRevealed c = true ↔ c.state = REVEALED := by
  cases h : c.state <;> simp [isRevealed, h]

theorem isFlagged_eq_true {c : Cell} : isFlagged c = true ↔ c.state = FLAGGED := by
  cases h : c.state <;> simp [isFlagged, h]

theorem hiddenCountG_checkWin (W H M : Nat) (g : Game) :
    hiddenCountG W H (checkWinCondition W H M g) = hiddenCountG W H g := by
  unfold hiddenCountG
  rw [checkWin_grid]

/-- The counting effects of revealing one hidden in-bounds cell: one fewer
hidden cell, one more revealed cell. -/
theorem counts_set_reveal {W H : Nat} {g : Game} {xn yn : Nat}
    (hd : GridDims W H g.grid) (hxb : xn < W) (hyb : yn < H)
    (hhid : (cellAt g.grid xn yn).state = HIDDEN) :
    countCoords W H (setCellState g.grid xn yn REVEALED) isHidden + 1
        = countCoords W H g.grid isHidden ∧
      countCoords W H (setCellState g.grid xn yn REVEALED) isRevealed
        = countCoords W H g.grid isRevealed + 1 := by
  have hh : isHidden (cellAt g.grid xn yn) = true := isHidden_eq_true.mpr hhid
  have hr : isRevealed (cellAt g.grid xn yn) = false := by
    rw [isRevealed]
    rw [hhid]
  constructor
  · have h1 := countCoords_setCellState hd isHidden hxb hyb REVEALED
    have hrec : isHidden { cellAt g.grid xn yn with state := REVEALED } = false := rfl
    rw [hh, hrec] at h1
    simpa using h1
  · have h1 := countCoords_setCellState hd isRevealed hxb hyb REVEALED
    have hrec : isRevealed { cellAt g.grid xn yn with state := REVEALED } = true := rfl
    rw [hr, hrec] at h1
    simp at h1
    omega

/-- The counting effects of flagging one hidden in-bounds cell: one fewer
hidden cell, revealed count unchanged. -/
theorem counts_set_flag {W H : Nat} {g : Game} {xn yn : Nat}
    (hd : GridDims W H g.grid) (hxb : xn < W) (hyb : yn < H)
    (hhid : (cellAt g.grid xn yn).state = HIDDEN) :
    countCoords W H (setCellState g.grid xn yn FLAGGED) isHidden + 1
        = countCoords W H g.grid isHidden ∧
      countCoords W H (setCellState g.grid xn yn FLAGGED) isRevealed
        = countCoords W H g.grid isRevealed := by
  have hh : isHidden (cellAt g.grid xn yn) = true := isHidden_eq_true.mpr hhid
  have hr : isRevealed (cellAt g.grid xn yn) = false := by
    rw [isRevealed]
    rw [hhid]
  constructor
  · have h1 := countCoords_setCellState hd isHidden hxb hyb FLAGGED
    have hrec : isHidden { cellAt g.grid xn yn with state := FLAGGED } = false := rfl
    rw [hh, hrec] at h1
    simpa using h1
  · have h1 := countCoords_setCellState hd isRevealed hxb hyb FLAGGED
    have hrec : isRevealed { cellAt g.grid xn yn with state := FLAGGED } = false := rfl
    rw [hr, hrec] at h1
    simp at h1
    omega

theorem revealCellF_hidden_le (W H M : Nat) :
    ∀ (fuel : Nat) (g : Game) (x y : Int), GridDims W H g.grid →
      countCoords W H (revealCellF W H M fuel g x y).grid isHidden
        ≤ countCoords W H g.grid isHidden := by
  intro fuel
  induction fuel with
  | zero => intro g x y _; rw [revealCellF]
  | succ n ih =>
    intro g x y hd
    rw [revealCellF]
    split
    · exact Nat.le_refl _
    rename_i hb
    split
    · rename_i hhid
      simp only [Bool.or_eq_true, decide_eq_true_eq, not_or] at hb
      have hxb : x.toNat < W := by omega
      have hyb : y.toNat < H := by omega
      have hset := (counts_set_reveal hd hxb hyb hhid).1
      have hdset : GridDims W H (setCellState g.grid x.toNat y.toNat REVEALED) :=
        gridDims_of_stateOnly hd (stateOnly_setCellState ..)
      split
      · show countCoords W H (setCellState g.grid x.toNat y.toNat REVEALED) isHidden ≤ _
        omega
      · rw [checkWin_grid]
        split
        · have hfl := revealFlood_pres W H M n
            (fun gx => GridDims W H gx.grid ∧
              countCoords W H gx.grid isHidden
                ≤ countCoords W H (setCellState g.grid x.toNat y.toNat REVEALED) isHidden)
            (fun gx xx yy hP => ⟨gridDims_of_stateOnly hP.1 (revealCellF_stateOnly ..),
              Nat.le_trans (ih gx xx yy hP.1) hP.2⟩)
            { g with grid := setCellState g.grid x.toNat y.toNat REVEALED } x y
            ⟨hdset, Nat.le_refl _⟩
          have h2 := hfl.2
          omega
        · show countCoords W H (setCellState g.grid x.toNat y.toNat REVEALED) isHidden ≤ _
          omega
    · exact Nat.le_refl _

theorem revealCellF_revealed_ge (W H M : Nat) :
    ∀ (fuel : Nat) (g : Game) (x y : Int), GridDims W H g.grid →
      countCoords W H g.grid isRevealed
        ≤ countCoords W H (revealCellF W H M fuel g x y).grid isRevealed := by
  intro fuel
  induction fuel with
  | zero => intro g x y _; rw [revealCellF]
  | succ n ih =>
    intro g x y hd
    rw [revealCellF]
    split
    · exact Nat.le_refl _
    rename_i hb
    split
    · rename_i hhid
      simp only [Bool.or_eq_true, decide_eq_true_eq, not_or] at hb
      have hxb : x.toNat < W := by omega
      have hyb : y.toNat < H := by omega
      have hset := (counts_set_reveal hd hxb hyb hhid).2
      have hdset : GridDims W H (setCellState g.grid x.toNat y.toNat REVEALED) :=
        gridDims_of_stateOnly hd (stateOnly_setCellState ..)
      split
      · show _ ≤ countCoords W H (setCellState g.grid x.toNat y.toNat REVEALED) isRevealed
        omega
      · rw [checkWin_grid]
        split
        · have hfl := revealFlood_pres W H M n
            (fun gx => GridDims W H gx.grid ∧
              countCoords W H (setCellState g.grid x.toNat y.toNat REVEALED) isRevealed
                ≤ countCoords W H gx.grid isRevealed)
            (fun gx xx yy hP => ⟨gridDims_of_stateOnly hP.1 (revealCellF_stateOnly ..),
              Nat.le_trans hP.2 (ih gx xx yy hP.1)⟩)
            { g with grid := setCellState g.grid x.toNat y.toNat REVEALED } x y
            ⟨hdset, Nat.le_refl _⟩
          have h2 := hfl.2
          omega
        · show _ ≤ countCoords W H (setCellState g.grid x.toNat y.toNat REVEALED) isRevealed
          omega
    · exact Nat.le_refl _

/-- A reveal aimed at an in-bounds hidden cell strictly decreases the hidden
count, whatever else the flood does. -/
theorem revealCellF_hidden_lt (W H M : Nat) (n : Nat) (g : Game) (x y : Int)
    (hd : GridDims W H g.grid)
    (hb0 : 0 ≤ x) (hbW : x < (W : Int)) (hb1 : 0 ≤ y) (hbH : y < (H : Int))
    (hhid : (cellAt g.grid x.toNat y.toNat).state = HIDDEN) :
    countCoords W H (revealCellF W H M (n+1) g x y).grid isHidden
      < countCoords W H g.grid isHidden := by
  rw [revealCellF]
  have hcond : ¬((x < 0 || (W : Int) ≤ x || y < 0 || (H : Int) ≤ y) = true) := by
    simp only [Bool.or_eq_true, decide_eq_true_eq, not_or]
    omega
  rw [if_neg hcond, if_pos hhid]
  have hxb : x.toNat < W := by omega
  have hyb : y.toNat < H := by omega
  have hset := (counts_set_reveal hd hxb hyb hhid).1
  have hdset : GridDims W H (setCellState g.grid x.toNat y.toNat REVEALED) :=
    gridDims_of_stateOnly hd (stateOnly_setCellState ..)
  split
  · show countCoords W H (setCellState g.grid x.toNat y.toNat REVEALED) isHidden < _
    omega
  · rw [checkWin_grid]
    split
    · have hfl := revealFlood_pres W H M n
        (fun gx => GridDims W H gx.grid ∧
          countCoords W H gx.grid isHidden
            ≤ countCoords W H (setCellState g.grid x.toNat y.toNat REVEALED) isHidden)
        (fun gx xx yy hP => ⟨gridDims_of_stateOnly hP.1 (revealCellF_stateOnly ..),
          Nat.le_trans (revealCellF_hidden_le W H M n gx xx yy hP.1) hP.2⟩)
        { g with grid := setCellState g.grid x.toNat y.toNat REVEALED } x y
        ⟨hdset, Nat.le_refl _⟩
      have h2 := hfl.2
      omega
    · show countCoords W H (setCellState g.grid x.toNat y.toNat REVEALED) isHidden < _
      omega

/-- Revealing a non-mine cell cannot introduce a revealed mine. -/
theorem noRevealedMine_setRevealed {g : Game} {xn yn : Nat}
    (hn : NoRevealedMine g.grid)
    (hm : (cellAt g.grid xn yn).isMine = false) :
    NoRevealedMine (setCellState g.grid xn yn REVEALED) := by
  intro p q hmine
  by_cases hpq : p = xn ∧ q = yn
  · obtain ⟨rfl, rfl⟩ := hpq
    by_cases hylen : q < g.grid.length
    · by_cases hxlen : p < (g.grid.getD q []).length
      · rw [cellAt_setCellState_self _ _ _ _ hylen hxlen] at hmine
        have hmm : (cellAt g.grid p q).isMine = true := hmine
        rw [hm] at hmm
        cases hmm
      · unfold cellAt setCellState at hmine ⊢
        rw [getD_set_self _ _ _ _ hylen,
          List.set_eq_of_length_le (Nat.le_of_not_lt hxlen)] at hmine ⊢
        exact hn p q hmine
    · unfold cellAt setCellState at hmine ⊢
      rw [List.set_eq_of_length_le (Nat.le_of_not_lt hylen)] at hmine ⊢
      exact hn p q hmine
  · rw [cellAt_setCellState_ne _ _ _ _ _ _ hpq] at hmine ⊢
    exact hn p q hmine

/-- As long as the board has not been lost, no mine is revealed:
preservation through one (possibly flooding) reveal. -/
theorem revealCellF_noRevMine (W H M : Nat) :
    ∀ (fuel : Nat) (g : Game) (x y : Int),
      NoRevealedMine g.grid →
      (revealCellF W H M fuel g x y).gameOver = false →
      NoRevealedMine (revealCellF W H M fuel g x y).grid := by
  intro fuel
  induction fuel with
  | zero => intro g x y hn _; rw [revealCellF]; exact hn
  | succ n ih =>
    intro g x y hn hgo
    revert hgo
    rw [revealCellF]
    split
    · intro _; exact hn
    split
    · split
      · intro hgo; cases hgo
      · rename_i hmine
        have hm : (cellAt g.grid x.toNat y.toNat).isMine = false := by
          simpa using hmine
        intro hgo
        rw [checkWin_gameOver] at hgo
        rw [checkWin_grid]
        revert hgo
        split
        · intro hgo
          have hfl := revealFlood_pres W H M n
            (fun gx => gx.gameOver = false → NoRevealedMine gx.grid)
            (fun gx xx yy hP h2 => by
              have hgo2 : gx.gameOver = false := by
                by_contra hcon
                rw [revealCellF_gameOver_mono W H M n gx xx yy
                  (Bool.not_eq_false _ ▸ hcon)] at h2
                cases h2
              exact ih gx xx yy (hP hgo2) h2)
            { g with grid := setCellState g.grid x.toNat y.toNat REVEALED } x y
            (fun _ => noRevealedMine_setRevealed hn hm)
          exact hfl hgo
        · intro _
          exact noRevealedMine_setRevealed hn hm
    · intro _; exact hn

/-- If a completed reveal leaves the board neither lost nor won, the revealed
count has not landed on `W*H - M` (the reveal path always ends in
`checkWinCondition`). -/
theorem revealCellF_winInv (W H M : Nat) (fuel : Nat) (g : Game) (x y : Int)
    (hg : g.gameOver = false → g.youWin = false →
      (countCoords W H g.grid isRevealed : Int) ≠ (W : Int) * (H : Int) - (M : Int)) :
    (revealCellF W H M fuel g x y).gameOver = false →
    (revealCellF W H M fuel g x y).youWin = false →
    (countCoords W H (revealCellF W H M fuel g x y).grid isRevealed : Int)
      ≠ (W : Int) * (H : Int) - (M : Int) := by
  cases fuel with
  | zero => rw [revealCellF]; exact hg
  | succ n =>
    rw [revealCellF]
    split
    · exact hg
    split
    · split
      · intro h _; cases h
      · intro _ hyw
        rw [checkWin_grid]
        exact checkWin_notWin hyw
    · exact hg

/-- Once won, the revealed count has reached `W*H - M` and reveals keep it
there or above. -/
theorem revealCellF_winTarget (W H M : Nat) :
    ∀ (fuel : Nat) (g : Game) (x y : Int), GridDims W H g.grid →
      (g.youWin = true →
        (W : Int) * (H : Int) - (M : Int) ≤ (countCoords W H g.grid isRevealed : Int)) →
      (revealCellF W H M fuel g x y).youWin = true →
      (W : Int) * (H : Int) - (M : Int)
        ≤ (countCoords W H (revealCellF W H M fuel g x y).grid isRevealed : Int) := by
  intro fuel
  induction fuel with
  | zero => intro g x y _ hg h; rw [revealCellF] at h ⊢; exact hg h
  | succ n ih =>
    intro g x y hd hg
    rw [revealCellF]
    split
    · exact hg
    rename_i hb
    split
    · rename_i hhid
      simp only [Bool.or_eq_true, decide_eq_true_eq, not_or] at hb
      have hxb : x.toNat < W := by omega
      have hyb : y.toNat < H := by omega
      have hset := (counts_set_reveal hd hxb hyb hhid).2
      have hdset : GridDims W H (setCellState g.grid x.toNat y.toNat REVEALED) :=
        gridDims_of_stateOnly hd (stateOnly_setCellState ..)
      split
      · intro hw
        have hbase := hg hw
        show _ ≤ (countCoords W H (setCellState g.grid x.toNat y.toNat REVEALED) isRevealed : Int)
        omega
      · intro hw
        rw [checkWin_grid]
        rcases checkWin_win_cases hw with hw2 | hceq
        · revert hw2
          split
          · intro hw2
            have hfl := revealFlood_pres W H M n
              (fun gx => GridDims W H gx.grid ∧ (gx.youWin = true →
                (W : Int) * (H : Int) - (M : Int)
                  ≤ (countCoords W H gx.grid isRevealed : Int)))
              (fun gx xx yy hP =>
                ⟨gridDims_of_stateOnly hP.1 (revealCellF_stateOnly ..),
                  fun hwin => ih gx xx yy hP.1 hP.2 hwin⟩)
              { g with grid := setCellState g.grid x.toNat y.toNat REVEALED } x y
              ⟨hdset, fun hw3 => by
                have hbase := hg hw3
                show _ ≤ (countCoords W H (setCellState g.grid x.toNat y.toNat REVEALED)
                  isRevealed : Int)
                omega⟩
            exact hfl.2 hw2
          · intro hw2
            have hbase := hg hw2
            show _ ≤ (countCoords W H (setCellState g.grid x.toNat y.toNat REVEALED)
              isRevealed : Int)
            omega
        · omega
    · exact hg

/-- The 3-value disjunction form of the flood targets, letting a property
use which cells the flood can aim at. -/
theorem revealFlood_pres_adj (W H M fuel : Nat) (x y : Int) (P : Game → Prop)
    (hstep : ∀ g xx yy, (xx = x + (-1) ∨ xx = x + 0 ∨ xx = x + 1) →
      (yy = y + (-1) ∨ yy = y + 0 ∨ yy = y + 1) → P g → P (revealCellF W H M fuel g xx yy)) :
    ∀ g, P g → P (revealFlood W H M fuel g x y) := by
  intro g hg
  unfold revealFlood
  refine hstep _ _ _ (Or.inr (Or.inr rfl)) (Or.inr (Or.inr rfl))
    (hstep _ _ _ (Or.inr (Or.inl (by ring))) (Or.inr (Or.inr rfl))
      (hstep _ _ _ (Or.inl (by ring)) (Or.inr (Or.inr rfl))
        (hstep _ _ _ (Or.inr (Or.inr rfl)) (Or.inr (Or.inl (by ring)))
          (hstep _ _ _ (Or.inr (Or.inl (by ring))) (Or.inr (Or.inl (by ring)))
            (hstep _ _ _ (Or.inl (by ring)) (Or.inr (Or.inl (by ring)))
              (hstep _ _ _ (Or.inr (Or.inr rfl)) (Or.inl (by ring))
                (hstep _ _ _ (Or.inr (Or.inl (by ring))) (Or.inl (by ring))
                  (hstep _ _ _ (Or.inl (by ring)) (Or.inl (by ring)) hg))))))))

/-- A cell whose stored neighbour count is zero and truthful has no mine in
its whole (in-bounds) 3×3 neighbourhood. -/
theorem mineNbrCountG_zero {W H : Nat} {grid : List (List Cell)} {xn yn : Nat}
    (h : mineNbrCountG W H grid xn yn = 0) :
    ∀ dx dy : Int, (dx, dy) ∈ nbrOffsets →
      inBounds W H ((xn : Int) + dx) ((yn : Int) + dy) = true →
      (cellAt grid ((xn : Int) + dx).toNat ((yn : Int) + dy).toNat).isMine = false := by
  unfold mineNbrCountG at h
  rw [List.length_eq_zero, List.filter_eq_nil_iff] at h
  intro dx dy hmem hib
  by_contra hcon
  have hmine : (cellAt grid ((xn : Int) + dx).toNat ((yn : Int) + dy).toNat).isMine = true := by
    revert hcon
    cases (cellAt grid ((xn : Int) + dx).toNat ((yn : Int) + dy).toNat).isMine <;> simp
  have hc := h (dx, dy) hmem
  apply hc
  show (inBounds W H ((xn : Int) + dx) ((yn : Int) + dy)
    && (cellAt grid ((xn : Int) + dx).toNat ((yn : Int) + dy).toNat).isMine) = true
  rw [hib, hmine]
  rfl

/-- Revealing a cell that is not a mine (resolved at the target, out-of-bounds
targets allowed) never changes `gameOver`: the flood only expands from
truthfully-zero cells, whose in-bounds neighbours are all mine-free. -/
theorem revealCellF_safe_gameOver (W H M : Nat) :
    ∀ (fuel : Nat) (g : Game) (x y : Int),
      GridDims W H g.grid → Truthful W H g.grid →
      (inBounds W H x y = true → (cellAt g.grid x.toNat y.toNat).isMine = false) →
      (revealCellF W H M fuel g x y).gameOver = g.gameOver := by
  intro fuel
  induction fuel with
  | zero => intro g x y _ _ _; rw [revealCellF]
  | succ n ih =>
    intro g x y hd ht hsafe
    rw [revealCellF]
    split
    · rfl
    rename_i hb
    simp only [Bool.or_eq_true, decide_eq_true_eq, not_or] at hb
    have hib : inBounds W H x y = true := by
      simp only [inBounds, Bool.and_eq_true, decide_eq_true_eq]
      omega
    split
    · split
      · rename_i hmine
        rw [hsafe hib] at hmine
        cases hmine
      · rw [checkWin_gameOver]
        split
        · rename_i hhid hnm hzero
          have hxv : ((x.toNat : Nat) : Int) = x := Int.toNat_of_nonneg (by omega)
          have hyv : ((y.toNat : Nat) : Int) = y := Int.toNat_of_nonneg (by omega)
          have hxb : x.toNat < W := by omega
          have hyb : y.toNat < H := by omega
          have hmfalse : (cellAt g.grid x.toNat y.toNat).isMine = false := hsafe hib
          have hzero2 : mineNbrCountG W H g.grid x.toNat y.toNat = 0 := by
            rw [← ht x.toNat y.toNat hxb hyb hmfalse]
            exact hzero
          have key := mineNbrCountG_zero hzero2
          have hfl := revealFlood_pres_adj W H M n x y
            (fun gx => StateOnly g.grid gx.grid ∧ gx.gameOver = g.gameOver)
            (fun gx xx yy hdx hdy hP => by
              have hdg : GridDims W H gx.grid := gridDims_of_stateOnly hd hP.1
              have htg : Truthful W H gx.grid := truthful_of_stateOnly ht hP.1
              refine ⟨stateOnly_trans hP.1 (revealCellF_stateOnly ..), ?_⟩
              rw [ih gx xx yy hdg htg ?safe]
              · exact hP.2
              case safe =>
                intro hib2
                rw [← (hP.1.2.2 xx.toNat yy.toNat).1]
                have solve : ∀ dx dy : Int, ((dx, dy) ∈ nbrOffsets) →
                    inBounds W H (x + dx) (y + dy) = true →
                    (cellAt g.grid (x + dx).toNat (y + dy).toNat).isMine = false := by
                  intro dx dy hmem hib3
                  have hk := key dx dy hmem (by rw [hxv, hyv]; exact hib3)
                  rw [hxv, hyv] at hk
                  exact hk
                rcases hdx with rfl | rfl | rfl <;> rcases hdy with rfl | rfl | rfl <;>
                  exact solve _ _ (by simp [nbrOffsets]) hib2)
            { g with grid := setCellState g.grid x.toNat y.toNat REVEALED }
            ⟨stateOnly_setCellState .., rfl⟩
          exact hfl.2
        · rfl
    · rfl

/-! ### The scan neighbourhood of a rule -/

theorem mem_scopeRange {s dx : Int} : dx ∈ scopeRange s ↔ -s ≤ dx ∧ dx ≤ s := by
  simp only [scopeRange, List.mem_map, List.mem_range]
  constructor
  · rintro ⟨k, hk, rfl⟩
    omega
  · intro h
    exact ⟨(dx + s).toNat, by omega, by omega⟩

theorem nodup_scopeRange {s : Int} : (scopeRange s).Nodup := by
  unfold scopeRange
  refine (List.nodup_range _).map ?_
  intro a b hab
  simp only [] at hab
  omega

theorem mem_boxCoords {W H : Nat} {s : Int} {x y : Nat} {cc : Nat × Nat} :
    cc ∈ boxCoords W H s x y ↔
      cc.1 < W ∧ cc.2 < H ∧
      -s ≤ (cc.1 : Int) - (x : Int) ∧ (cc.1 : Int) - (x : Int) ≤ s ∧
      -s ≤ (cc.2 : Int) - (y : Int) ∧ (cc.2 : Int) - (y : Int) ≤ s := by
  unfold boxCoords
  rw [List.mem_filterMap]
  constructor
  · rintro ⟨d, hd, hsome⟩
    have hp := List.mem_product.mp hd
    have h1 := mem_scopeRange.mp hp.1
    have h2 := mem_scopeRange.mp hp.2
    have hsome2 : (if inBounds W H ((x : Int) + d.2) ((y : Int) + d.1) = true then
        some ((((x : Int) + d.2)).toNat, (((y : Int) + d.1)).toNat) else none) = some cc := hsome
    by_cases hin : inBounds W H ((x : Int) + d.2) ((y : Int) + d.1) = true
    · rw [if_pos hin] at hsome2
      obtain rfl := (Option.some.injEq ..).mp hsome2
      simp only [inBounds, Bool.and_eq_true, decide_eq_true_eq] at hin
      refine ⟨by omega, by omega, ?_, ?_, ?_, ?_⟩ <;> simp only [] <;> omega
    · rw [if_neg hin] at hsome2
      cases hsome2
  · rintro ⟨h1, h2, h3, h4, h5, h6⟩
    refine ⟨((cc.2 : Int) - (y : Int), (cc.1 : Int) - (x : Int)),
      List.mem_product.mpr ⟨mem_scopeRange.mpr ⟨h5, h6⟩, mem_scopeRange.mpr ⟨h3, h4⟩⟩, ?_⟩
    have hin : inBounds W H ((x : Int) + ((cc.1 : Int) - (x : Int)))
        ((y : Int) + ((cc.2 : Int) - (y : Int))) = true := by
      simp only [inBounds, Bool.and_eq_true, decide_eq_true_eq]
      omega
    show (if _ = true then _ else _) = _
    rw [if_pos hin]
    rw [Option.some.injEq]
    refine Prod.ext ?_ ?_ <;> simp only [] <;> omega

theorem nodup_boxCoords {W H : Nat} {s : Int} {x y : Nat} :
    (boxCoords W H s x y).Nodup := by
  unfold boxCoords
  refine (nodup_scopeRange.product nodup_scopeRange).filterMap ?_
  intro a b cc hca hcb
  simp only [Option.mem_def] at hca hcb
  revert hca
  split
  · rename_i hina
    intro hca
    obtain rfl := (Option.some.injEq ..).mp hca
    revert hcb
    split
    · rename_i hinb
      intro hcb
      have hq := (Option.some.injEq ..).mp hcb
      simp only [inBounds, Bool.and_eq_true, decide_eq_true_eq] at hina hinb
      have e1 := congrArg Prod.fst hq
      have e2 := congrArg Prod.snd hq
      simp only [] at e1 e2
      refine Prod.ext ?_ ?_ <;> omega
    · intro hcb
      cases hcb
  · intro hca
    cases hca

theorem boxCoords_one_subset {W H : Nat} {s : Int} {x y : Nat} (hs : 1 ≤ s) :
    boxCoords W H 1 x y ⊆ boxCoords W H s x y := by
  intro cc hcc
  rw [mem_boxCoords] at hcc ⊢
  obtain ⟨h1, h2, h3, h4, h5, h6⟩ := hcc
  exact ⟨h1, h2, by omega, by omega, by omega, by omega⟩

theorem length_filter_filterMap {α β : Type} (l : List α) (f : α → Option β) (q : β → Bool) :
    ((l.filterMap f).filter q).length
      = l.countP (fun a => ((f a).map q).getD false) := by
  induction l with
  | nil => rfl
  | cons a t ih =>
    rw [List.filterMap_cons]
    cases hfa : f a
    · rw [List.countP_cons]
      simp only [hfa, Option.map_none, Option.getD_none, Bool.false_eq_true, if_false,
        Nat.add_zero]
      exact ih
    · rename_i b
      rw [List.filter_cons, List.countP_cons, hfa]
      by_cases hq : q b = true <;> simp [hq, ih]

/-- The true 8-neighbourhood mine count is exactly the mine count of the
scope-1 scan box. -/
theorem mineNbr_eq_box {W H : Nat} (grid : List (List Cell)) (x y : Nat) :
    mineNbrCountG W H grid x y
      = ((boxCoords W H 1 x y).filter (fun cc => (cellAt grid cc.1 cc.2).isMine)).length := by
  unfold boxCoords
  rw [length_filter_filterMap]
  have hswap : (scopeRange 1) ×ˢ (scopeRange 1)
      = nbrOffsets.map (fun o => (o.2, o.1)) := by decide
  rw [hswap, List.countP_map]
  unfold mineNbrCountG
  rw [← List.countP_eq_length_filter]
  refine List.countP_congr ?_
  intro o _
  show ((inBounds W H ((x : Int) + o.1) ((y : Int) + o.2)
      && (cellAt grid ((x : Int) + o.1).toNat ((y : Int) + o.2).toNat).isMine) = true)
    ↔ ((Option.map (fun cc => (cellAt grid cc.1 cc.2).isMine)
      (if inBounds W H ((x : Int) + o.1) ((y : Int) + o.2) = true
        then some (((x : Int) + o.1).toNat, ((y : Int) + o.2).toNat)
        else none)).getD false = true)
  by_cases hin : inBounds W H ((x : Int) + o.1) ((y : Int) + o.2) = true
  · rw [if_pos hin, hin]
    simp
  · rw [if_neg hin]
    have hfalse : inBounds W H ((x : Int) + o.1) ((y : Int) + o.2) = false := by
      revert hin
      cases inBounds W H ((x : Int) + o.1) ((y : Int) + o.2) <;> simp
    rw [hfalse]
    simp

theorem length_filter_add_filter {α : Type} (l : List α) (p q : α → Bool)
    (h : ∀ a ∈ l, (p a = true ∨ q a = true) ∧ ¬(p a = true ∧ q a = true)) :
    (l.filter p).length + (l.filter q).length = l.length := by
  induction l with
  | nil => rfl
  | cons a t ih =>
    rw [List.filter_cons, List.filter_cons]
    have ha := h a (List.mem_cons_self a t)
    have iht := ih (fun b hb => h b (List.mem_cons_of_mem _ hb))
    by_cases hp : p a = true
    · have hq : ¬ q a = true := fun hq => ha.2 ⟨hp, hq⟩
      rw [if_pos hp, if_neg hq]
      simp only [List.length_cons]
      omega
    · have hq : q a = true := (ha.1).resolve_left hp
      rw [if_neg hp, if_pos hq]
      simp only [List.length_cons]
      omega

theorem filter_length_le_of_subset {α : Type} {l1 l2 : List α} (hnd : l1.Nodup)
    (hsub : l1 ⊆ l2) (p q : α → Bool) (himp : ∀ a ∈ l1, p a = true → q a = true) :
    (l1.filter p).length ≤ (l2.filter q).length := by
  have h1 : (l1.filter p).Nodup := hnd.filter p
  have h2 : l1.filter p ⊆ l2.filter q := by
    intro a ha
    have hma := List.mem_filter.mp ha
    exact List.mem_filter.mpr ⟨hsub hma.1, himp a hma.1 hma.2⟩
  exact (List.subperm_of_subset h1 h2).length_le

/-- The heart of the flag-safety argument: when the `ACTION_PLACE_FLAG`
conditions of `applyRules` hold at a revealed cell of a truthful board on
which every flag sits on a mine and no mine is revealed, the single hidden
cell of the scan box is a mine.  (Of the cell's true mine neighbours, at
most `numberCondition - 1` can be flagged, none can be revealed, so at least
one is hidden — and it must be the unique hidden cell of the box.) -/
theorem flag_target_is_mine {W H : Nat} {g : Game} {r : Rule} {x y : Nat}
    (ht : Truthful W H g.grid) (hnrm : NoRevealedMine g.grid)
    (hx : x < W) (hy : y < H)
    (hrev : isRevealed (cellAt g.grid x y) = true)
    (hnum : ((cellAt g.grid x y).neighboringMines : Int) = r.numberCondition)
    (hflags : r.numberCondition - 1
      = (flagsCountAt g.grid (boxCoords W H r.extendedScope x y) : Int))
    (hone : (hiddenCellsAt g.grid (boxCoords W H r.extendedScope x y)).length = 1) :
    (cellAt g.grid
      ((hiddenCellsAt g.grid (boxCoords W H r.extendedScope x y)).headD (0,0)).1
      ((hiddenCellsAt g.grid (boxCoords W H r.extendedScope x y)).headD (0,0)).2).isMine
      = true := by
  obtain ⟨cc0, hcc0⟩ := List.length_eq_one.mp hone
  have hs1 : 1 ≤ r.extendedScope := by
    by_contra hcon
    push_neg at hcon
    have hmem : cc0 ∈ hiddenCellsAt g.grid (boxCoords W H r.extendedScope x y) := by
      rw [hcc0]
      exact List.mem_cons_self ..
    have hmf := List.mem_filter.mp hmem
    have hbox := mem_boxCoords.mp hmf.1
    obtain ⟨hb1, hb2, hb3, hb4, hb5, hb6⟩ := hbox
    have hxeq : cc0.1 = x := by omega
    have hyeq : cc0.2 = y := by omega
    have hh := hmf.2
    rw [hxeq, hyeq, isHidden_eq_true] at hh
    rw [isRevealed_eq_true, hh] at hrev
    cases hrev
  have hcm : (cellAt g.grid x y).isMine = false := by
    by_cases hmm : (cellAt g.grid x y).isMine = true
    · rw [hnrm x y hmm] at hrev
      cases hrev
    · revert hmm
      cases (cellAt g.grid x y).isMine <;> simp
  have hv := ht x y hx hy hcm
  rw [mineNbr_eq_box] at hv
  have hpart := length_filter_add_filter
    ((boxCoords W H 1 x y).filter (fun cc => (cellAt g.grid cc.1 cc.2).isMine))
    (fun cc => isFlagged (cellAt g.grid cc.1 cc.2))
    (fun cc => isHidden (cellAt g.grid cc.1 cc.2))
    (by
      intro a ha
      have hmine := (List.mem_filter.mp ha).2
      have hnr := hnrm a.1 a.2 hmine
      constructor
      · rw [isFlagged_eq_true, isHidden_eq_true]
        cases hst : (cellAt g.grid a.1 a.2).state
        · exact Or.inr rfl
        · rw [isRevealed_eq_true.mpr hst] at hnr
          cases hnr
        · exact Or.inl rfl
      · rintro ⟨hf, hh⟩
        rw [isFlagged_eq_true] at hf
        rw [isHidden_eq_true, hf] at hh
        cases hh)
  have hle : (((boxCoords W H 1 x y).filter
      (fun cc => (cellAt g.grid cc.1 cc.2).isMine)).filter
        (fun cc => isFlagged (cellAt g.grid cc.1 cc.2))).length
      ≤ flagsCountAt g.grid (boxCoords W H r.extendedScope x y) := by
    unfold flagsCountAt
    refine filter_length_le_of_subset (nodup_boxCoords.filter _) ?_ _ _ (fun a _ h => h)
    intro a ha
    exact boxCoords_one_subset hs1 (List.mem_filter.mp ha).1
  have hhpos : 0 < (((boxCoords W H 1 x y).filter
      (fun cc => (cellAt g.grid cc.1 cc.2).isMine)).filter
        (fun cc => isHidden (cellAt g.grid cc.1 cc.2))).length := by
    omega
  obtain ⟨m, hm⟩ := List.exists_mem_of_length_pos hhpos
  have hm1 := List.mem_filter.mp hm
  have hm2 := List.mem_filter.mp hm1.1
  have hmS : m ∈ hiddenCellsAt g.grid (boxCoords W H r.extendedScope x y) := by
    unfold hiddenCellsAt
    exact List.mem_filter.mpr ⟨boxCoords_one_subset hs1 hm2.1, hm1.2⟩
  rw [hcc0] at hmS
  have hmeq : m = cc0 := by simpa using hmS
  rw [hcc0]
  show (cellAt g.grid ([cc0].headD (0,0)).1 ([cc0].headD (0,0)).2).isMine = true
  rw [← hmeq] at hcc0 ⊢
  exact hm2.2

/-! ### The invariant through whole operations -/

theorem gameInv_revealCellF {W H M : Nat} (fuel : Nat) (g : Game) (x y : Int)
    (hinv : GameInv W H M g) : GameInv W H M (revealCellF W H M fuel g x y) := by
  obtain ⟨hd, ht, hmc, hfom, hnrm, hwi⟩ := hinv
  have hso := revealCellF_stateOnly W H M fuel g x y
  refine ⟨gridDims_of_stateOnly hd hso, truthful_of_stateOnly ht hso,
    by rw [← mineCount_of_stateOnly hso]; exact hmc, ?_, ?_, ?_⟩
  · intro p q hf
    have h0 := revealCellF_flag_origin W H M fuel g x y p q hf
    rw [← (hso.2.2 p q).1]
    exact hfom p q h0
  · intro hgo
    have hg0 : g.gameOver = false := by
      by_contra hx2
      rw [revealCellF_gameOver_mono W H M fuel g x y
        (by revert hx2; cases g.gameOver <;> simp)] at hgo
      cases hgo
    exact revealCellF_noRevMine W H M fuel g x y (hnrm hg0) hgo
  · exact revealCellF_winInv W H M fuel g x y hwi

theorem gameInv_revealCell {W H M : Nat} (g : Game) (x y : Int)
    (hinv : GameInv W H M g) : GameInv W H M (revealCell W H M g x y) :=
  gameInv_revealCellF _ g x y hinv

theorem placeFlag_isRevealed (W H : Nat) (g : Game) (x y : Int) (p q : Nat) :
    isRevealed (cellAt (placeFlag W H g x y).grid p q)
      = isRevealed (cellAt g.grid p q) := by
  unfold placeFlag
  split
  · rfl
  split
  · rename_i hhid
    by_cases hpq : p = x.toNat ∧ q = y.toNat
    · obtain ⟨rfl, rfl⟩ := hpq
      by_cases hylen : y.toNat < g.grid.length
      · by_cases hxlen : x.toNat < (g.grid.getD y.toNat []).length
        · rw [cellAt_setCellState_self _ _ _ _ hylen hxlen]
          have h1 : isRevealed { cellAt g.grid x.toNat y.toNat with state := FLAGGED }
              = false := rfl
          have h2 : isRevealed (cellAt g.grid x.toNat y.toNat) = false := by
            rw [isRevealed]
            rw [hhid]
          rw [h1, h2]
        · unfold cellAt setCellState
          rw [getD_set_self _ _ _ _ hylen,
            List.set_eq_of_length_le (Nat.le_of_not_lt hxlen)]
      · unfold cellAt setCellState
        rw [List.set_eq_of_length_le (Nat.le_of_not_lt hylen)]
    · rw [cellAt_setCellState_ne _ _ _ _ _ _ hpq]
  · rfl

theorem gameInv_placeFlag {W H M : Nat} {g : Game} {x y : Int}
    (hinv : GameInv W H M g)
    (hm : (cellAt g.grid x.toNat y.toNat).isMine = true) :
    GameInv W H M (placeFlag W H g x y) := by
  obtain ⟨hd, ht, hmc, hfom, hnrm, hwi⟩ := hinv
  have hso := placeFlag_stateOnly W H g x y
  refine ⟨gridDims_of_stateOnly hd hso, truthful_of_stateOnly ht hso,
    by rw [← mineCount_of_stateOnly hso]; exact hmc,
    flagsOnMines_placeFlag hfom hm, ?_, ?_⟩
  · intro hgo
    rw [placeFlag_gameOver] at hgo
    intro p q hmine
    rw [← (hso.2.2 p q).1] at hmine
    rw [placeFlag_isRevealed]
    exact hnrm hgo p q hmine
  · intro hgo hyw
    rw [placeFlag_gameOver] at hgo
    rw [placeFlag_youWin] at hyw
    have hcnt : countCoords W H (placeFlag W H g x y).grid isRevealed
        = countCoords W H g.grid isRevealed :=
      countCoords_congr (fun p q hp hq => placeFlag_isRevealed W H g x y p q)
    rw [hcnt]
    exact hwi hgo hyw

theorem placeFlag_hidden_lt {W H : Nat} {g : Game} {x y : Int}
    (hd : GridDims W H g.grid)
    (hb0 : 0 ≤ x) (hbW : x < (W : Int)) (hb1 : 0 ≤ y) (hbH : y < (H : Int))
    (hhid : (cellAt g.grid x.toNat y.toNat).state = HIDDEN) :
    countCoords W H (placeFlag W H g x y).grid isHidden
      < countCoords W H g.grid isHidden := by
  unfold placeFlag
  have hcond : ¬((x < 0 || (W : Int) ≤ x || y < 0 || (H : Int) ≤ y) = true) := by
    simp only [Bool.or_eq_true, decide_eq_true_eq, not_or]
    omega
  rw [if_neg hcond, if_pos hhid]
  have hxb : x.toNat < W := by omega
  have hyb : y.toNat < H := by omega
  have hset := (counts_set_flag hd hxb hyb hhid).1
  show countCoords W H (setCellState g.grid x.toNat y.toNat FLAGGED) isHidden < _
  omega

theorem revealList_inv {W H M : Nat} :
    ∀ (l : List (Nat × Nat)) (g : Game) (ch : Bool), GameInv W H M g →
      GameInv W H M (revealList W H M l g ch).1 := by
  intro l
  induction l with
  | nil => intro g ch h; exact h
  | cons cc rest ih =>
    intro g ch h
    rw [revealList]
    split
    · exact ih g ch h
    · exact ih _ true (gameInv_revealCell _ _ _ h)

theorem revealList_hidden_le {W H M : Nat} :
    ∀ (l : List (Nat × Nat)) (g : Game) (ch : Bool), GridDims W H g.grid →
      countCoords W H (revealList W H M l g ch).1.grid isHidden
        ≤ countCoords W H g.grid isHidden := by
  intro l
  induction l with
  | nil => intro g ch _; exact Nat.le_refl _
  | cons cc rest ih =>
    intro g ch hd
    rw [revealList]
    split
    · exact ih g ch hd
    · have hd2 : GridDims W H (revealCell W H M g (cc.1 : Int) (cc.2 : Int)).grid :=
        gridDims_of_stateOnly hd (revealCellF_stateOnly ..)
      exact Nat.le_trans (ih _ true hd2) (revealCellF_hidden_le W H M _ g _ _ hd)

theorem revealList_strict {W H M : Nat} (cc : Nat × Nat) (rest : List (Nat × Nat))
    (g : Game) (ch : Bool) (hd : GridDims W H g.grid)
    (hterm : (g.gameOver || g.youWin) = false)
    (hx : cc.1 < W) (hy : cc.2 < H)
    (hhid : isHidden (cellAt g.grid cc.1 cc.2) = true) :
    countCoords W H (revealList W H M (cc :: rest) g ch).1.grid isHidden
      < countCoords W H g.grid isHidden := by
  rw [revealList]
  rw [if_neg (by rw [hterm]; simp)]
  have hd2 : GridDims W H (revealCell W H M g (cc.1 : Int) (cc.2 : Int)).grid :=
    gridDims_of_stateOnly hd (revealCellF_stateOnly ..)
  refine Nat.lt_of_le_of_lt (revealList_hidden_le rest _ true hd2) ?_
  unfold revealCell
  refine revealCellF_hidden_lt W H M _ g _ _ hd (by omega) (by omega) (by omega) (by omega) ?_
  rw [isHidden_eq_true] at hhid
  simpa [Int.toNat_natCast] using hhid

/-- Full specification of one rule applied at one scanned cell: the
invariant is preserved, the hidden count never grows, and if the call
reports an action fired that was not already reported, the hidden count
strictly shrank. -/
theorem applyRuleAt_spec {W H M : Nat} (r : Rule) (x y : Nat) (g : Game) (ch : Bool)
    (hx : x < W) (hy : y < H)
    (hterm : (g.gameOver || g.youWin) = false)
    (hinv : GameInv W H M g) :
    GameInv W H M (applyRuleAt W H M r x y g ch).1 ∧
      countCoords W H (applyRuleAt W H M r x y g ch).1.grid isHidden
        ≤ countCoords W H g.grid isHidden ∧
      ((applyRuleAt W H M r x y g ch).2 = true → ch = true ∨
        countCoords W H (applyRuleAt W H M r x y g ch).1.grid isHidden
          < countCoords W H g.grid isHidden) := by
  obtain ⟨hd, ht, hmc, hfom, hnrm, hwi⟩ := hinv
  have hinv2 : GameInv W H M g := ⟨hd, ht, hmc, hfom, hnrm, hwi⟩
  have hgo : g.gameOver = false := by
    revert hterm
    cases g.gameOver <;> simp
  simp only [applyRuleAt]
  split
  case isFalse => exact ⟨hinv2, Nat.le_refl _, fun h => Or.inl h⟩
  case isTrue hmain =>
  split
  · exact ⟨hinv2, Nat.le_refl _, fun h => Or.inl h⟩
  split
  · exact ⟨hinv2, Nat.le_refl _, fun h => Or.inl h⟩
  split
  · exact ⟨hinv2, Nat.le_refl _, fun h => Or.inl h⟩
  split
  · exact ⟨hinv2, Nat.le_refl _, fun h => Or.inl h⟩
  rename_i hhc hfc hne hpat
  split
  · -- ACTION_REVEAL_HIDDEN
    split
    · rename_i hfire
      have hpos : 0 < (hiddenCellsAt g.grid (boxCoords W H r.extendedScope x y)).length := by
        simp only [Bool.and_eq_true, decide_eq_true_eq] at hfire
        exact hfire.2
      cases hlist : hiddenCellsAt g.grid (boxCoords W H r.extendedScope x y) with
      | nil => rw [hlist] at hpos; cases hpos
      | cons cc rest =>
        have hccm : cc ∈ hiddenCellsAt g.grid (boxCoords W H r.extendedScope x y) := by
          rw [hlist]
          exact List.mem_cons_self ..
        have hmf := List.mem_filter.mp hccm
        have hbox := mem_boxCoords.mp hmf.1
        refine ⟨revealList_inv _ g ch hinv2, revealList_hidden_le _ g ch hd,
          fun _ => Or.inr ?_⟩
        exact revealList_strict cc rest g ch hd hterm hbox.1 hbox.2.1 hmf.2
    · exact ⟨hinv2, Nat.le_refl _, fun h => Or.inl h⟩
  · -- ACTION_PLACE_FLAG
    split
    · rename_i hfire
      split
      · rename_i habs
        rw [hterm] at habs
        cases habs
      · simp only [Bool.and_eq_true, decide_eq_true_eq] at hfire hmain
        have hone : (hiddenCellsAt g.grid (boxCoords W H r.extendedScope x y)).length = 1 :=
          hfire.2
        have htarget := flag_target_is_mine ht (hnrm hgo) hx hy hmain.1 hmain.2
          hfire.1 hone
        obtain ⟨cc0, hcc0⟩ := List.length_eq_one.mp hone
        have hccm : cc0 ∈ hiddenCellsAt g.grid (boxCoords W H r.extendedScope x y) := by
          rw [hcc0]
          exact List.mem_cons_self ..
        have hmf := List.mem_filter.mp hccm
        have hbox := mem_boxCoords.mp hmf.1
        have hhead : (hiddenCellsAt g.grid (boxCoords W H r.extendedScope x y)).headD (0, 0)
            = cc0 := by
          rw [hcc0]
          rfl
        rw [hhead] at htarget ⊢
        have hmine2 : (cellAt g.grid ((cc0.1 : Int)).toNat ((cc0.2 : Int)).toNat).isMine
            = true := by
          rw [Int.toNat_natCast, Int.toNat_natCast]
          exact htarget
        have hhid2 : (cellAt g.grid ((cc0.1 : Int)).toNat ((cc0.2 : Int)).toNat).state
            = HIDDEN := by
          rw [Int.toNat_natCast, Int.toNat_natCast]
          exact isHidden_eq_true.mp hmf.2
        refine ⟨gameInv_placeFlag hinv2 hmine2, ?_, fun _ => Or.inr ?_⟩
        · exact Nat.le_of_lt (placeFlag_hidden_lt hd (by omega)
            (by exact_mod_cast hbox.1) (by omega) (by exact_mod_cast hbox.2.1) hhid2)
        · exact placeFlag_hidden_lt hd (by omega) (by exact_mod_cast hbox.1) (by omega)
            (by exact_mod_cast hbox.2.1) hhid2
    · exact ⟨hinv2, Nat.le_refl _, fun h => Or.inl h⟩

theorem applyRuleCells_spec {W H M : Nat} (r : Rule) :
    ∀ (coords : List (Nat × Nat)) (g : Game) (ch : Bool),
      (∀ cc ∈ coords, cc.1 < W ∧ cc.2 < H) → GameInv W H M g →
      GameInv W H M (applyRuleCells W H M r coords g ch).1 ∧
        countCoords W H (applyRuleCells W H M r coords g ch).1.grid isHidden
          ≤ countCoords W H g.grid isHidden ∧
        ((applyRuleCells W H M r coords g ch).2 = true → ch = true ∨
          countCoords W H (applyRuleCells W H M r coords g ch).1.grid isHidden
            < countCoords W H g.grid isHidden) := by
  intro coords
  induction coords with
  | nil =>
    intro g ch _ hinv
    exact ⟨hinv, Nat.le_refl _, fun h => Or.inl h⟩
  | cons cc rest ih =>
    intro g ch hb hinv
    rw [applyRuleCells]
    split
    · exact ⟨hinv, Nat.le_refl _, fun h => Or.inl h⟩
    · rename_i hterm2
      have hterm : (g.gameOver || g.youWin) = false := by
        revert hterm2
        cases (g.gameOver || g.youWin) <;> simp
      have hcc := hb cc (List.mem_cons_self ..)
      have h1 := applyRuleAt_spec r cc.1 cc.2 g ch hcc.1 hcc.2 hterm hinv
      have h2 := ih (applyRuleAt W H M r cc.1 cc.2 g ch).1 (applyRuleAt W H M r cc.1 cc.2 g ch).2
        (fun c hc => hb c (List.mem_cons_of_mem _ hc)) h1.1
      refine ⟨h2.1, Nat.le_trans h2.2.1 h1.2.1, fun hch => ?_⟩
      rcases h2.2.2 hch with hch1 | hlt
      · rcases h1.2.2 hch1 with hch0 | hlt0
        · exact Or.inl hch0
        · exact Or.inr (Nat.lt_of_le_of_lt h2.2.1 hlt0)
      · exact Or.inr (Nat.lt_of_lt_of_le hlt h1.2.1)

theorem applyRulesWith_spec {W H M : Nat} :
    ∀ (ρ : List Rule) (g : Game) (ch : Bool), GameInv W H M g →
      GameInv W H M (applyRulesWith W H M ρ g ch).1 ∧
        countCoords W H (applyRulesWith W H M ρ g ch).1.grid isHidden
          ≤ countCoords W H g.grid isHidden ∧
        ((applyRulesWith W H M ρ g ch).2 = true → ch = true ∨
          countCoords W H (applyRulesWith W H M ρ g ch).1.grid isHidden
            < countCoords W H g.grid isHidden) := by
  intro ρ
  induction ρ with
  | nil =>
    intro g ch hinv
    exact ⟨hinv, Nat.le_refl _, fun h => Or.inl h⟩
  | cons r rest ih =>
    intro g ch hinv
    rw [applyRulesWith]
    split
    · exact ⟨hinv, Nat.le_refl _, fun h => Or.inl h⟩
    · have h1 := applyRuleCells_spec r (allCoords W H) g ch
        (fun c hc => mem_allCoords.mp hc) hinv
      have h2 := ih (applyRuleCells W H M r (allCoords W H) g ch).1
        (applyRuleCells W H M r (allCoords W H) g ch).2 h1.1
      refine ⟨h2.1, Nat.le_trans h2.2.1 h1.2.1, fun hch => ?_⟩
      rcases h2.2.2 hch with hch1 | hlt
      · rcases h1.2.2 hch1 with hch0 | hlt0
        · exact Or.inl hch0
        · exact Or.inr (Nat.lt_of_le_of_lt h2.2.1 hlt0)
      · exact Or.inr (Nat.lt_of_lt_of_le hlt h1.2.1)

/-- On a reachable non-terminal board some cell is still hidden: were none,
all flags would sit exactly on the mines and every safe cell would be
revealed, which the win-count invariant rules out. -/
theorem hidden_pos_of_nonterminal {W H M : Nat} {g : Game} (hinv : GameInv W H M g)
    (hgo : g.gameOver = false) (hyw : g.youWin = false) :
    0 < countCoords W H g.grid isHidden := by
  obtain ⟨hd, ht, hmc, hfom, hnrm, hwi⟩ := hinv
  by_contra hcon
  push_neg at hcon
  have hzero : countCoords W H g.grid isHidden = 0 := by omega
  have hnil : ∀ cc ∈ allCoords W H, ¬(isHidden (cellAt g.grid cc.1 cc.2) = true) := by
    unfold countCoords at hzero
    rw [List.length_eq_zero, List.filter_eq_nil_iff] at hzero
    exact hzero
  have hnh : ∀ cc ∈ allCoords W H, isHidden (cellAt g.grid cc.1 cc.2) = false := by
    intro cc hcc
    have h2 := hnil cc hcc
    revert h2
    cases isHidden (cellAt g.grid cc.1 cc.2) <;> simp
  have hfm : ∀ cc ∈ allCoords W H,
      isFlagged (cellAt g.grid cc.1 cc.2) = (cellAt g.grid cc.1 cc.2).isMine := by
    intro cc hcc
    by_cases hf : isFlagged (cellAt g.grid cc.1 cc.2) = true
    · rw [hf, hfom cc.1 cc.2 hf]
    · have hfx : isFlagged (cellAt g.grid cc.1 cc.2) = false := by
        revert hf
        cases isFlagged (cellAt g.grid cc.1 cc.2) <;> simp
      rw [hfx]
      by_cases hm2 : (cellAt g.grid cc.1 cc.2).isMine = true
      · exfalso
        have hnr := hnrm hgo cc.1 cc.2 hm2
        have hh := hnh cc hcc
        cases hst : (cellAt g.grid cc.1 cc.2).state
        · rw [isHidden_eq_true.mpr hst] at hh
          cases hh
        · rw [isRevealed_eq_true.mpr hst] at hnr
          cases hnr
        · rw [isFlagged_eq_true.mpr hst] at hfx
          cases hfx
      · revert hm2
        cases (cellAt g.grid cc.1 cc.2).isMine <;> simp
  have hcf : countCoords W H g.grid isFlagged = M := by
    rw [← hmc]
    unfold countCoords
    exact congrArg List.length (List.filter_congr (fun cc hcc => hfm cc hcc))
  have hpart := length_filter_add_filter (allCoords W H)
    (fun cc => isRevealed (cellAt g.grid cc.1 cc.2))
    (fun cc => isFlagged (cellAt g.grid cc.1 cc.2))
    (by
      intro cc hcc
      have hh := hnh cc hcc
      constructor
      · cases hst : (cellAt g.grid cc.1 cc.2).state
        · rw [isHidden_eq_true.mpr hst] at hh
          cases hh
        · exact Or.inl (isRevealed_eq_true.mpr hst)
        · exact Or.inr (isFlagged_eq_true.mpr hst)
      · rintro ⟨h1, h2⟩
        rw [isRevealed_eq_true] at h1
        rw [isFlagged_eq_true, h1] at h2
        cases h2)
  have hlen := length_allCoords W H
  have hMle : M ≤ W * H := by
    rw [← hcf]
    calc countCoords W H g.grid isFlagged
        ≤ (allCoords W H).length := List.length_filter_le ..
      _ = W * H := hlen
  refine hwi hgo hyw ?_
  have h1 : countCoords W H g.grid isRevealed + countCoords W H g.grid isFlagged
      = W * H := by
    unfold countCoords
    rw [hpart, hlen]
  omega

theorem revealRandomCell_spec {W H M : Nat} {g : Game} (pick : Nat)
    (hinv : GameInv W H M g) (hgo : g.gameOver = false) (hyw : g.youWin = false) :
    GameInv W H M (revealRandomCell W H M g pick) ∧
      countCoords W H (revealRandomCell W H M g pick).grid isHidden
        < countCoords W H g.grid isHidden := by
  have hpos := hidden_pos_of_nonterminal hinv hgo hyw
  have hlen : ((allCoords W H).filter (fun cc => isHidden (cellAt g.grid cc.1 cc.2))).length
      = countCoords W H g.grid isHidden := rfl
  simp only [revealRandomCell]
  split
  · rename_i hemp
    rw [List.isEmpty_iff] at hemp
    rw [hemp] at hlen
    simp at hlen
    omega
  · rename_i hemp
    have hidx : pick % ((allCoords W H).filter
        (fun cc => isHidden (cellAt g.grid cc.1 cc.2))).length
        < ((allCoords W H).filter (fun cc => isHidden (cellAt g.grid cc.1 cc.2))).length := by
      refine Nat.mod_lt _ ?_
      omega
    have hmem : ((allCoords W H).filter
        (fun cc => isHidden (cellAt g.grid cc.1 cc.2))).getD
          (pick % ((allCoords W H).filter
            (fun cc => isHidden (cellAt g.grid cc.1 cc.2))).length) (0, 0)
        ∈ (allCoords W H).filter (fun cc => isHidden (cellAt g.grid cc.1 cc.2)) := by
      rw [List.getD_eq_getElem _ _ hidx]
      exact List.getElem_mem hidx
    have hmf := List.mem_filter.mp hmem
    have hbc := mem_allCoords.mp hmf.1
    refine ⟨gameInv_revealCell _ _ _ hinv, ?_⟩
    unfold revealCell
    refine revealCellF_hidden_lt W H M _ g _ _ hinv.1 (by omega)
      (by exact_mod_cast hbc.1) (by omega) (by exact_mod_cast hbc.2) ?_
    rw [Int.toNat_natCast, Int.toNat_natCast]
    exact isHidden_eq_true.mp hmf.2

/-- One playout-loop iteration from a non-done state: the invariant is kept
and either the loop condition now fails or the hidden count strictly
decreased. -/
theorem loopBody_spec {W H M : Nat} (ρ : List Rule) (s : LoopSt)
    (hinv : GameInv W H M s.game) (_hnd : loopDone s = false) :
    GameInv W H M (loopBody W H M ρ s).game ∧
      (loopDone (loopBody W H M ρ s) = true ∨
        countCoords W H (loopBody W H M ρ s).game.grid isHidden
          < countCoords W H s.game.grid isHidden) := by
  have hp := applyRulesWith_spec ρ s.game false hinv
  simp only [loopBody]
  split
  · rename_i hcond
    simp only [Bool.and_eq_true, Bool.not_eq_true'] at hcond
    have hgo : (applyRulesWith W H M ρ s.game false).1.gameOver = false := by
      have h2 := hcond.2
      revert h2
      cases (applyRulesWith W H M ρ s.game false).1.gameOver <;>
        cases (applyRulesWith W H M ρ s.game false).1.youWin <;> simp
    have hyw : (applyRulesWith W H M ρ s.game false).1.youWin = false := by
      have h2 := hcond.2
      revert h2
      cases (applyRulesWith W H M ρ s.game false).1.gameOver <;>
        cases (applyRulesWith W H M ρ s.game false).1.youWin <;> simp
    have hrr := revealRandomCell_spec (s.rng s.k) hp.1 hgo hyw
    exact ⟨hrr.1, Or.inr (Nat.lt_of_lt_of_le hrr.2 hp.2.1)⟩
  · rename_i hcond
    refine ⟨hp.1, ?_⟩
    by_cases hch : (applyRulesWith W H M ρ s.game false).2 = true
    · rcases hp.2.2 hch with h0 | hlt
      · cases h0
      · exact Or.inr hlt
    · refine Or.inl ?_
      have hch2 : (applyRulesWith W H M ρ s.game false).2 = false := by
        revert hch
        cases (applyRulesWith W H M ρ s.game false).2 <;> simp
      simp [loopDone, hch2]

theorem runLoop_of_done {W H M : Nat} (ρ : List Rule) (n : Nat) (s : LoopSt)
    (h : loopDone s = true) : runLoop W H M ρ n s = s := by
  cases n with
  | zero => rfl
  | succ k => rw [runLoop, if_pos h]

/-- The playout loop reaches a state failing its `while` condition within any
budget exceeding the current hidden-cell count. -/
theorem runLoop_done {W H M : Nat} (ρ : List Rule) :
    ∀ (n : Nat) (s : LoopSt), GameInv W H M s.game →
      countCoords W H s.game.grid isHidden < n →
      loopDone (runLoop W H M ρ n s) = true := by
  intro n
  induction n with
  | zero => intro s _ h; cases h
  | succ k ih =>
    intro s hinv hlt
    rw [runLoop]
    split
    · assumption
    · rename_i hnd2
      have hnd : loopDone s = false := by
        revert hnd2
        cases loopDone s <;> simp
      have hb := loopBody_spec ρ s hinv hnd
      rcases hb.2 with hdone | hstrict
      · rw [runLoop_of_done _ _ _ hdone]
        exact hdone
      · exact ih _ hb.1 (by omega)

/-! ### The freshly initialized board -/

theorem getD_map_range {α : Type} (f : Nat → α) (n i : Nat) (d : α) (h : i < n) :
    ((List.range n).map f).getD i d = f i := by
  rw [List.getD_eq_getElem _ _ (by simpa using h)]
  simp

theorem cellAt_buildGrid {W H : Nat} {mg : List (List Bool)} {x y : Nat}
    (hx : x < W) (hy : y < H) :
    cellAt (buildGrid W H mg) x y
      = if bmAt mg x y then { isMine := true, neighboringMines := 0, state := HIDDEN }
        else { isMine := false, neighboringMines := mineNbrCountBm W H mg x y,
               state := HIDDEN } := by
  unfold cellAt buildGrid
  rw [getD_map_range _ _ _ _ hy, getD_map_range _ _ _ _ hx]

theorem gridDims_buildGrid (W H : Nat) (mg : List (List Bool)) :
    GridDims W H (buildGrid W H mg) := by
  constructor
  · simp [buildGrid]
  · intro y hy
    unfold buildGrid
    rw [getD_map_range _ _ _ _ hy]
    simp

theorem cellAt_buildGrid_state {W H : Nat} {mg : List (List Bool)} (x y : Nat) :
    (cellAt (buildGrid W H mg) x y).state = HIDDEN := by
  by_cases hy : y < H
  · by_cases hx : x < W
    · rw [cellAt_buildGrid hx hy]
      split <;> rfl
    · have hge : ((buildGrid W H mg).getD y []).length ≤ x := by
        rw [(gridDims_buildGrid W H mg).2 y hy]
        omega
      unfold cellAt
      rw [List.getD_eq_default _ _ hge]
      rfl
  · have hrow : (buildGrid W H mg).getD y [] = [] := by
      refine List.getD_eq_default _ _ ?_
      rw [(gridDims_buildGrid W H mg).1]
      omega
    unfold cellAt
    rw [hrow]
    rfl

theorem cellAt_buildGrid_isMine {W H : Nat} {mg : List (List Bool)} {x y : Nat}
    (hx : x < W) (hy : y < H) :
    (cellAt (buildGrid W H mg) x y).isMine = bmAt mg x y := by
  rw [cellAt_buildGrid hx hy]
  by_cases hb : bmAt mg x y = true
  · rw [if_pos hb, hb]
  · rw [if_neg hb]
    revert hb
    cases bmAt mg x y <;> simp

theorem truthful_buildGrid {W H : Nat} {mg : List (List Bool)} :
    Truthful W H (buildGrid W H mg) := by
  intro x y hx hy hm
  have hbm : bmAt mg x y = false := by
    rw [← cellAt_buildGrid_isMine hx hy]
    exact hm
  rw [cellAt_buildGrid hx hy, if_neg (by rw [hbm]; simp)]
  show mineNbrCountBm W H mg x y = _
  unfold mineNbrCountBm mineNbrCountG
  refine congrArg List.length (List.filter_congr ?_)
  intro o _
  show (inBounds W H ((x : Int) + o.1) ((y : Int) + o.2)
      && bmAt mg ((x : Int) + o.1).toNat ((y : Int) + o.2).toNat)
    = (inBounds W H ((x : Int) + o.1) ((y : Int) + o.2)
      && (cellAt (buildGrid W H mg) ((x : Int) + o.1).toNat
        ((y : Int) + o.2).toNat).isMine)
  by_cases hin : inBounds W H ((x : Int) + o.1) ((y : Int) + o.2) = true
  · rw [hin]
    have hinb := hin
    simp only [inBounds, Bool.and_eq_true, decide_eq_true_eq] at hinb
    rw [cellAt_buildGrid_isMine (show ((x : Int) + o.1).toNat < W by omega)
      (show ((y : Int) + o.2).toNat < H by omega)]
  · have hfalse : inBounds W H ((x : Int) + o.1) ((y : Int) + o.2) = false := by
      revert hin
      cases inBounds W H ((x : Int) + o.1) ((y : Int) + o.2) <;> simp
    rw [hfalse]
    rfl

/-- The invariant at the end of `initializeGridFixed` on a bank-produced
scenario, packaged with the bound `hidden < W*H` that the initial reveal of
the safe start cell guarantees. -/
theorem gameInv_initializeGridFixed {W H M : Nat} {fg : FixedGame}
    (hv : ValidScenario W H M fg) :
    GameInv W H M (initializeGridFixed W H M fg.startX fg.startY fg.mineGrid) ∧
      countCoords W H (initializeGridFixed W H M fg.startX fg.startY fg.mineGrid).grid
        isHidden < W * H := by
  obtain ⟨hlen, hrows, hcnt, hx0, hxW, hy0, hyH, hsafe⟩ := hv
  have hxb : fg.startX.toNat < W := by omega
  have hyb : fg.startY.toNat < H := by omega
  have hstartmem : (fg.startX.toNat, fg.startY.toNat) ∈ allCoords W H :=
    mem_allCoords.mpr ⟨hxb, hyb⟩
  have hmlt : M < W * H := by
    rw [← hcnt]
    calc ((allCoords W H).filter (fun cc => bmAt fg.mineGrid cc.1 cc.2)).length
        < (allCoords W H).length :=
          List.length_filter_lt_length_iff_exists.mpr
            ⟨(fg.startX.toNat, fg.startY.toNat), hstartmem, by
              show ¬ bmAt fg.mineGrid fg.startX.toNat fg.startY.toNat = true
              rw [hsafe]
              simp⟩
      _ = W * H := length_allCoords W H
  have hmc0 : countCoords W H (buildGrid W H fg.mineGrid) (fun c => c.isMine) = M := by
    rw [← hcnt]
    unfold countCoords
    refine congrArg List.length (List.filter_congr ?_)
    intro cc hcc
    have hb := mem_allCoords.mp hcc
    show (cellAt (buildGrid W H fg.mineGrid) cc.1 cc.2).isMine = bmAt fg.mineGrid cc.1 cc.2
    exact cellAt_buildGrid_isMine hb.1 hb.2
  have hrev0 : countCoords W H (buildGrid W H fg.mineGrid) isRevealed = 0 := by
    unfold countCoords
    rw [List.length_eq_zero, List.filter_eq_nil_iff]
    intro cc _
    rw [isRevealed_eq_true, cellAt_buildGrid_state]
    simp
  have hhid0 : countCoords W H (buildGrid W H fg.mineGrid) isHidden = W * H := by
    unfold countCoords
    rw [List.filter_eq_self.mpr, length_allCoords W H]
    intro cc _
    rw [isHidden_eq_true]
    exact cellAt_buildGrid_state cc.1 cc.2
  have hinv0 :
      GameInv W H M ⟨buildGrid W H fg.mineGrid, false, false⟩ := by
    refine ⟨gridDims_buildGrid W H fg.mineGrid, truthful_buildGrid, hmc0, ?_, ?_, ?_⟩
    · intro p q hf
      rw [isFlagged_eq_true, cellAt_buildGrid_state] at hf
      cases hf
    · intro _ p q _
      show isRevealed (cellAt (buildGrid W H fg.mineGrid) p q) = false
      unfold isRevealed
      rw [cellAt_buildGrid_state p q]
    · intro _ _
      show ((countCoords W H (buildGrid W H fg.mineGrid) isRevealed : Nat) : Int) ≠ _
      rw [hrev0]
      push_cast
      omega
  unfold initializeGridFixed
  rw [if_pos (by simp only [Bool.and_eq_true, decide_eq_true_eq]; exact ⟨hx0, hy0⟩)]
  constructor
  · exact gameInv_revealCell _ _ _ hinv0
  · have hlt := revealCellF_hidden_lt W H M
      (hiddenCountG W H ⟨buildGrid W H fg.mineGrid, false, false⟩)
      ⟨buildGrid W H fg.mineGrid, false, false⟩
      fg.startX fg.startY (gridDims_buildGrid W H fg.mineGrid) hx0 hxW hy0 hyH
      (cellAt_buildGrid_state fg.startX.toNat fg.startY.toNat)
    unfold revealCell
    have hh0 : countCoords W H (buildGrid W H fg.mineGrid) isHidden = W * H := hhid0
    have he : countCoords W H (Game.grid ⟨buildGrid W H fg.mineGrid, false, false⟩)
        isHidden = countCoords W H (buildGrid W H fg.mineGrid) isHidden := rfl
    omega

/-- **C1.**  For every individual (whatever order `std::sort` put its rules
in) and every scenario the fixed-game bank can produce, the playout loop of
`evaluateIndividual` reaches a state falsifying its `while` condition within
the `W * H`-iteration budget of `playGame`: every iteration that does not
end the loop strictly decreases the number of hidden cells (a firing rule
reveals or flags a hidden cell; otherwise the stuck-break reveals one, and a
hidden cell always exists on a reachable non-terminal board), and at most
`W*H - 1` cells are hidden after the initial safe reveal. -/
theorem evaluateIndividual_playout_terminates (W H M : Nat) (ρ : List Rule)
    (fg : FixedGame) (rng : Nat → Nat) (k : Nat)
    (hv : ValidScenario W H M fg) :
    loopDone (playGame W H M ρ fg rng k) = true := by
  unfold playGame
  have hinit := gameInv_initializeGridFixed hv
  exact runLoop_done ρ (W * H) _ hinit.1 hinit.2

/-- Concrete witness for the playout-termination theorem: a 2×2 board with
one mine, the empty genome, and the constant-zero random stream. -/
theorem evaluateIndividual_playout_terminates_witness :
    ValidScenario 2 2 1 ⟨0, 0, [[false, false], [false, true]]⟩ ∧
      loopDone (playGame 2 2 1 [] ⟨0, 0, [[false, false], [false, true]]⟩
        (fun _ => 0) 0) = true :=
  ⟨by unfold ValidScenario; decide,
    evaluateIndividual_playout_terminates 2 2 1 []
      ⟨0, 0, [[false, false], [false, true]]⟩ (fun _ => 0) 0
      (by unfold ValidScenario; decide)⟩

/-! ### Reveal sequences and the win flag -/

theorem applyReveals_cons (W H M : Nat) (g : Game) (cc : Int × Int)
    (l : List (Int × Int)) :
    applyReveals W H M g (cc :: l)
      = applyReveals W H M (revealCell W H M g cc.1 cc.2) l := rfl

theorem applyReveals_append (W H M : Nat) (g : Game) (l1 l2 : List (Int × Int)) :
    applyReveals W H M g (l1 ++ l2)
      = applyReveals W H M (applyReveals W H M g l1) l2 := by
  unfold applyReveals
  rw [List.foldl_append]

/-- The win flag is monotone along any sequence of reveals. -/
theorem applyReveals_youWin_mono (W H M : Nat) :
    ∀ (l : List (Int × Int)) (g : Game), g.youWin = true →
      (applyReveals W H M g l).youWin = true := by
  intro l
  induction l with
  | nil => intro g h; exact h
  | cons cc rest ih =>
    intro g h
    rw [applyReveals_cons]
    exact ih _ (revealCellF_youWin_mono W H M _ g cc.1 cc.2 h)

/-- `revealCell` keeps the lower bound `W*H - M ≤ revealed` once won. -/
theorem revealCell_winTarget {W H M : Nat} {g : Game} (x y : Int)
    (hd : GridDims W H g.grid)
    (hg : g.youWin = true →
      (W : Int) * (H : Int) - (M : Int) ≤ (countCoords W H g.grid isRevealed : Int)) :
    (revealCell W H M g x y).youWin = true →
      (W : Int) * (H : Int) - (M : Int)
        ≤ (countCoords W H (revealCell W H M g x y).grid isRevealed : Int) :=
  revealCellF_winTarget W H M _ g x y hd hg

/-- The game invariant and the won-target bound along a reveal sequence. -/
theorem applyReveals_inv {W H M : Nat} :
    ∀ (l : List (Int × Int)) (g : Game), GameInv W H M g →
      (g.youWin = true →
        (W : Int) * (H : Int) - (M : Int) ≤ (countCoords W H g.grid isRevealed : Int)) →
      GameInv W H M (applyReveals W H M g l) ∧
        ((applyReveals W H M g l).youWin = true →
          (W : Int) * (H : Int) - (M : Int)
            ≤ (countCoords W H (applyReveals W H M g l).grid isRevealed : Int)) := by
  intro l
  induction l with
  | nil => intro g hi ht; exact ⟨hi, ht⟩
  | cons cc rest ih =>
    intro g hi ht
    rw [applyReveals_cons]
    exact ih _ (gameInv_revealCell _ _ _ hi) (revealCell_winTarget cc.1 cc.2 hi.1 ht)

/-- At the end of `initializeGridFixed` the won-target bound holds. -/
theorem winTarget_initializeGridFixed {W H M : Nat} {fg : FixedGame}
    (hv : ValidScenario W H M fg) :
    (initializeGridFixed W H M fg.startX fg.startY fg.mineGrid).youWin = true →
      (W : Int) * (H : Int) - (M : Int)
        ≤ (countCoords W H
            (initializeGridFixed W H M fg.startX fg.startY fg.mineGrid).grid
            isRevealed : Int) := by
  obtain ⟨hlen, hrows, hcnt, hx0, hxW, hy0, hyH, hsafe⟩ := hv
  unfold initializeGridFixed
  rw [if_pos (by simp only [Bool.and_eq_true, decide_eq_true_eq]; exact ⟨hx0, hy0⟩)]
  unfold revealCell
  exact revealCellF_winTarget W H M _ _ fg.startX fg.startY
    (gridDims_buildGrid W H fg.mineGrid) (fun hw => nomatch hw)

/-- While no mine is revealed, the revealed count and the revealed-non-mine
count coincide. -/
theorem revealed_eq_revealed_nonmine (W H : Nat) {g : Game}
    (hnr : NoRevealedMine g.grid) :
    countCoords W H g.grid isRevealed
      = countCoords W H g.grid (fun c => isRevealed c && !c.isMine) := by
  refine countCoords_congr ?_
  intro x y _ _
  by_cases hr : isRevealed (cellAt g.grid x y) = true
  · have hm : (cellAt g.grid x y).isMine = false := by
      by_contra hc
      have hm2 : (cellAt g.grid x y).isMine = true := by
        revert hc; cases (cellAt g.grid x y).isMine <;> simp
      have hcon := hnr x y hm2
      rw [hr] at hcon
      cases hcon
    rw [hr, hm]
    rfl
  · have hr2 : isRevealed (cellAt g.grid x y) = false := by
      revert hr; cases isRevealed (cellAt g.grid x y) <;> simp
    rw [hr2]
    rfl

/-- While no mine is revealed, at most the `W*H - M` non-mine cells are
revealed. -/
theorem revealed_le_nonmine_total (W H : Nat) {M : Nat} {g : Game}
    (hmc : countCoords W H g.grid (fun c => c.isMine) = M)
    (hnr : NoRevealedMine g.grid) :
    (countCoords W H g.grid isRevealed : Int)
      ≤ (W : Int) * (H : Int) - (M : Int) := by
  have hsplit := length_filter_add_filter (allCoords W H)
    (fun cc => (cellAt g.grid cc.1 cc.2).isMine)
    (fun cc => !(cellAt g.grid cc.1 cc.2).isMine)
    (by
      intro a _
      cases (cellAt g.grid a.1 a.2).isMine <;> simp)
  have hle : countCoords W H g.grid isRevealed
      ≤ countCoords W H g.grid (fun c => !c.isMine) := by
    unfold countCoords
    rw [← List.countP_eq_length_filter, ← List.countP_eq_length_filter]
    refine List.countP_mono_left ?_
    intro cc _ hrev
    show (!(cellAt g.grid cc.1 cc.2).isMine) = true
    cases hmm : (cellAt g.grid cc.1 cc.2).isMine with
    | false => rfl
    | true =>
      have h2 := hnr cc.1 cc.2 hmm
      rw [hrev] at h2
      cases h2
  have htot : countCoords W H g.grid (fun c => c.isMine)
      + countCoords W H g.grid (fun c => !c.isMine) = W * H := by
    unfold countCoords
    rw [hsplit, length_allCoords W H]
  have hmlt : countCoords W H g.grid (fun c => !c.isMine) = W * H - M := by omega
  have hmle : M ≤ W * H := by omega
  omega

/-- **C2** (corrected).  Along every reveal sequence from a bank-producible
initial board *that has not revealed a mine*, the win flag is on exactly when
the revealed-non-mine count equals `W*H - M`, and once on it never reverts
under further reveals.  Without the no-mine-revealed proviso the
biconditional is false — `checkWinCondition` counts every `REVEALED` cell,
mines included (see the counterexample). -/
theorem win_flag_iff_revealed_nonmine (W H M : Nat) (fg : FixedGame)
    (l l2 : List (Int × Int)) (hv : ValidScenario W H M fg)
    (hok : (applyReveals W H M
        (initializeGridFixed W H M fg.startX fg.startY fg.mineGrid) l).gameOver = false) :
    ((applyReveals W H M
        (initializeGridFixed W H M fg.startX fg.startY fg.mineGrid) l).youWin = true ↔
      (countCoords W H (applyReveals W H M
          (initializeGridFixed W H M fg.startX fg.startY fg.mineGrid) l).grid
          (fun c => isRevealed c && !c.isMine) : Int)
        = (W : Int) * (H : Int) - (M : Int)) ∧
    ((applyReveals W H M
        (initializeGridFixed W H M fg.startX fg.startY fg.mineGrid) l).youWin = true →
      (applyReveals W H M
        (initializeGridFixed W H M fg.startX fg.startY fg.mineGrid) (l ++ l2)).youWin
          = true) := by
  have hbase := gameInv_initializeGridFixed hv
  have hw0 := winTarget_initializeGridFixed hv
  obtain ⟨hinv, htgt⟩ := applyReveals_inv l _ hbase.1 hw0
  have hnr := hinv.2.2.2.2.1 hok
  constructor
  · constructor
    · intro hwin
      have hge := htgt hwin
      have hle := revealed_le_nonmine_total W H hinv.2.2.1 hnr
      rw [← revealed_eq_revealed_nonmine W H hnr]
      omega
    · intro hcount
      by_cases hwin : (applyReveals W H M
          (initializeGridFixed W H M fg.startX fg.startY fg.mineGrid) l).youWin = true
      · exact hwin
      · have hnw := Bool.eq_false_iff.mpr hwin
        have hne := hinv.2.2.2.2.2 hok hnw
        rw [← revealed_eq_revealed_nonmine W H hnr] at hcount
        exact absurd hcount hne
  · intro hwin
    rw [applyReveals_append]
    exact applyReveals_youWin_mono W H M l2 _ hwin

unseal revealCellF revealFlood in
/-- Witness: on the 2×1 board with its mine at `(1,0)`, the initial reveal of
the safe start already wins, and the biconditional holds on the empty
further sequence. -/
theorem win_flag_iff_revealed_nonmine_witness :
    ValidScenario 2 1 1 ⟨0, 0, [[false, true]]⟩ ∧
      (applyReveals 2 1 1 (initializeGridFixed 2 1 1 0 0 [[false, true]])
        []).gameOver = false ∧
      ((applyReveals 2 1 1 (initializeGridFixed 2 1 1 0 0 [[false, true]])
          []).youWin = true ↔
        (countCoords 2 1 (applyReveals 2 1 1
            (initializeGridFixed 2 1 1 0 0 [[false, true]]) []).grid
            (fun c => isRevealed c && !c.isMine) : Int)
          = ((2 : Nat) : Int) * ((1 : Nat) : Int) - ((1 : Nat) : Int)) :=
  ⟨by unfold ValidScenario; decide, by decide,
    (win_flag_iff_revealed_nonmine 2 1 1 ⟨0, 0, [[false, true]]⟩ [] []
      (by unfold ValidScenario; decide) (by decide)).1⟩

unseal revealCellF revealFlood in
/-- Counterexample to the claim as stated: on the 4×1 board with its mine at
`(1,0)`, revealing the mine and then the safe cell `(2,0)` drives the
revealed count (mine included) to `W*H - M = 3`, so `checkWinCondition`
turns the win flag on while only `2 ≠ 3` non-mine cells are revealed. -/
theorem win_flag_iff_revealed_nonmine_cex :
    (applyReveals 4 1 1 (initializeGridFixed 4 1 1 0 0 [[false, true, false, false]])
        [(1, 0), (2, 0)]).youWin = true ∧
      ¬ ((countCoords 4 1 (applyReveals 4 1 1
            (initializeGridFixed 4 1 1 0 0 [[false, true, false, false]])
            [(1, 0), (2, 0)]).grid
          (fun c => isRevealed c && !c.isMine) : Int)
        = ((4 : Nat) : Int) * ((1 : Nat) : Int) - ((1 : Nat) : Int)) := by
  decide

/-! ### Fitness as a mean of playout scores -/

/-- The running total of `evaluateIndividual` is the sum of the per-scenario
scores of the playout sequence. -/
theorem evalGamesAux_spec (W H M : Nat) (ρ : List Rule) (rng : Nat → Nat) :
    ∀ (games : List FixedGame) (k : Nat) (total : ℚ),
      (evalGamesAux W H M ρ rng games k total).1
        = total + ((playoutStates W H M ρ rng games k).map
            (fun s => scoreOf W H s.game s.actionsTaken)).sum := by
  intro games
  induction games with
  | nil =>
    intro k total
    simp [evalGamesAux, playoutStates]
  | cons fg rest ih =>
    intro k total
    simp only [evalGamesAux, playoutStates, List.map_cons, List.sum_cons]
    rw [ih]
    ring

/-- **C3.**  The fitness returned by `evaluateIndividual` is the arithmetic
mean over the sampled scenarios of the per-playout score
`safeRevealed + 5*correctFlags - 50*minesRevealed - 0.1*actionsTaken
(+ 2000 if won)`; in particular, for an individual that wins every sampled
scenario with no mine revealed, it is exactly the mean of
`safeRevealed + 5*correctFlags - 0.1*actions + 2000`.  (`double` arithmetic
is idealized over `ℚ`.) -/
theorem evaluateIndividual_mean_score (W H M : Nat) (ind : Individual)
    (sel : List FixedGame) (rng : Nat → Nat) (k : Nat) :
    (evaluateIndividual W H M ind sel rng k).2
      = ((playoutStates W H M (sortedRulesOf ind) rng sel k).map
          (fun s => scoreOf W H s.game s.actionsTaken)).sum / (sel.length : ℚ)
    ∧ ((∀ s ∈ playoutStates W H M (sortedRulesOf ind) rng sel k,
          s.game.youWin = true ∧ minesRevealedCount W H s.game = 0) →
        (evaluateIndividual W H M ind sel rng k).2
          = ((playoutStates W H M (sortedRulesOf ind) rng sel k).map
              (fun s => (safeRevealedCount W H s.game : ℚ)
                + (correctFlagsCount W H s.game : ℚ) * 5
                - (s.actionsTaken : ℚ) * (1/10) + 2000)).sum / (sel.length : ℚ)) := by
  have h1 : (evaluateIndividual W H M ind sel rng k).2
      = ((playoutStates W H M (sortedRulesOf ind) rng sel k).map
          (fun s => scoreOf W H s.game s.actionsTaken)).sum / (sel.length : ℚ) := by
    show (evalGamesAux W H M (sortedRulesOf ind) rng sel k 0).1 / (sel.length : ℚ) = _
    rw [evalGamesAux_spec W H M (sortedRulesOf ind) rng sel k 0, zero_add]
  refine ⟨h1, ?_⟩
  intro hall
  rw [h1]
  congr 1
  refine congrArg List.sum ?_
  refine List.map_congr_left ?_
  intro s hs
  obtain ⟨hwin, hmz⟩ := hall s hs
  unfold scoreOf
  rw [hwin, hmz]
  norm_num

unseal revealCellF revealFlood in
/-- Witness for the mean-score theorem: the empty genome on the 2×1 scenario
whose initial reveal wins at once with no mine revealed. -/
theorem evaluateIndividual_mean_score_witness :
    (∀ s ∈ playoutStates 2 1 1 (sortedRulesOf ⟨[], 0⟩) (fun _ => 0)
        [⟨0, 0, [[false, true]]⟩] 0,
      s.game.youWin = true ∧ minesRevealedCount 2 1 s.game = 0) ∧
    (evaluateIndividual 2 1 1 ⟨[], 0⟩ [⟨0, 0, [[false, true]]⟩]
        (fun _ => 0) 0).2
      = ((playoutStates 2 1 1 (sortedRulesOf ⟨[], 0⟩) (fun _ => 0)
          [⟨0, 0, [[false, true]]⟩] 0).map
          (fun s => (safeRevealedCount 2 1 s.game : ℚ)
            + (correctFlagsCount 2 1 s.game : ℚ) * 5
            - (s.actionsTaken : ℚ) * (1/10) + 2000)).sum
        / (([⟨0, 0, [[false, true]]⟩] : List FixedGame).length : ℚ) :=
  ⟨by decide,
    (evaluateIndividual_mean_score 2 1 1 ⟨[], 0⟩ [⟨0, 0, [[false, true]]⟩]
      (fun _ => 0) 0).2 (by decide)⟩

/-! ### Tie order of the rule sort -/

unseal revealCellF revealFlood in
/-- **C4** (refuting stability).  Two orders of the same two-rule genome,
both admissible results of the `std::sort` call (equal priorities, so every
permutation is non-increasing in priority), drive the same board to
observably different outcomes: one order reveals a mine (`gameOver`), the
other flags it.  An unstable sort therefore makes the playout — and the
fitness — depend on how the implementation happens to break the tie,
contradicting the deterministic, genome-order tie-break the specification
demands. -/
theorem applyRules_tie_order_dependent :
    ∃ (genome ρ1 ρ2 : List Rule) (g : Game),
      SortedByPriority genome ρ1 ∧ SortedByPriority genome ρ2 ∧
      (applyRulesWith 5 1 1 ρ1 g false).1.gameOver
        ≠ (applyRulesWith 5 1 1 ρ2 g false).1.gameOver := by
  refine ⟨[⟨0, 1, 0, false, false, 2, 5, RuleAction.ACTION_REVEAL_HIDDEN⟩,
      ⟨1, 1, 0, false, false, 1, 5, RuleAction.ACTION_PLACE_FLAG⟩],
    [⟨0, 1, 0, false, false, 2, 5, RuleAction.ACTION_REVEAL_HIDDEN⟩,
      ⟨1, 1, 0, false, false, 1, 5, RuleAction.ACTION_PLACE_FLAG⟩],
    [⟨1, 1, 0, false, false, 1, 5, RuleAction.ACTION_PLACE_FLAG⟩,
      ⟨0, 1, 0, false, false, 2, 5, RuleAction.ACTION_REVEAL_HIDDEN⟩],
    initializeGridFixed 5 1 1 0 0 [[false, false, false, true, false]],
    ?_, ?_, ?_⟩
  · exact ⟨List.Perm.refl _, by decide⟩
  · exact ⟨List.Perm.swap _ _ _, by decide⟩
  · decide

/-! ### The empty scenario sample -/

/-- **C5** (refuting the guard).  An empty bank yields an empty sample, and
`evaluateIndividual` then divides the zero total by the zero sample size and
silently returns the resulting plain value — no configuration error is
raised anywhere on this path.  (Over `ℚ` the division totalizes to `0`; the
C++ computes `0.0/0`, a quiet NaN, equally silently.) -/
theorem evaluateIndividual_empty_sample (W H M : Nat) (ind : Individual)
    (rng rng2 : Nat → Nat) (k n : Nat) :
    selectFixedGames [] n rng2 = [] ∧
      (evaluateIndividual W H M ind (selectFixedGames [] n rng2) rng k).2
        = (0 : ℚ) / ((0 : Nat) : ℚ) ∧
      (evaluateIndividual W H M ind (selectFixedGames [] n rng2) rng k).2
        = (0 : ℚ) := by
  refine ⟨rfl, rfl, ?_⟩
  show (0 : ℚ) / ((0 : Nat) : ℚ) = 0
  norm_num

/-! ### Reveals of non-mine cells never lose -/

/-- **C9.**  On a truthful board (every non-mine cell carries the exact
count of its in-bounds mine neighbours, as initialization guarantees),
`revealCell` leaves `gameOver` unchanged whenever the targeted cell is not
itself a mine: out-of-bounds targets are ignored, and the flood expands only
from cells whose neighbour count is zero, so it can never touch a mine. -/
theorem revealCell_nonmine_keeps_gameOver (W H M : Nat) (g : Game) (x y : Int)
    (hd : GridDims W H g.grid) (ht : Truthful W H g.grid)
    (hsafe : inBounds W H x y = true →
      (cellAt g.grid x.toNat y.toNat).isMine = false) :
    (revealCell W H M g x y).gameOver = g.gameOver :=
  revealCellF_safe_gameOver W H M _ g x y hd ht hsafe

/-- Bounded-quantifier form of `Truthful`, for concrete evaluation. -/
theorem truthful_of_forall {W H : Nat} {grid : List (List Cell)}
    (h : ∀ x < W, ∀ y < H, (cellAt grid x y).isMine = false →
      (cellAt grid x y).neighboringMines = mineNbrCountG W H grid x y) :
    Truthful W H grid :=
  fun x y hx hy => h x hx y hy

unseal revealCellF revealFlood in
/-- Witness: on the fresh 2×2 board with its mine at `(1,1)`, revealing the
non-mine corner `(0,0)` leaves `gameOver` off. -/
theorem revealCell_nonmine_keeps_gameOver_witness :
    Truthful 2 2 (initializeGridFixed 2 2 1 (-1) (-1)
        [[false, false], [false, true]]).grid ∧
      (revealCell 2 2 1 (initializeGridFixed 2 2 1 (-1) (-1)
          [[false, false], [false, true]]) 0 0).gameOver
        = (initializeGridFixed 2 2 1 (-1) (-1)
            [[false, false], [false, true]]).gameOver :=
  ⟨truthful_of_forall (by decide),
    revealCell_nonmine_keeps_gameOver 2 2 1
      (initializeGridFixed 2 2 1 (-1) (-1) [[false, false], [false, true]]) 0 0
      (by unfold GridDims; decide) (truthful_of_forall (by decide)) (by decide)⟩

/-! ### Frame of rule application and evaluation -/

/-- **C10.**  `applyRules` threads the individual through unchanged (it
sorts a private copy of the genome, whose effect on the board depends on the
genome only through that copy), and `evaluateIndividual` returns the
individual with genome and stored fitness intact — evaluation only reads the
genome and returns the computed score separately. -/
theorem applyRules_evaluateIndividual_frame (W H M : Nat) (ind : Individual)
    (g : Game) (sel : List FixedGame) (rng : Nat → Nat) (k : Nat) :
    (applyRules W H M ind g).1 = ind ∧
      (applyRules W H M ind g).2 = applyRulesWith W H M (sortedRulesOf ind) g false ∧
      (evaluateIndividual W H M ind sel rng k).1 = ind ∧
      (evaluateIndividual W H M ind sel rng k).1.rules = ind.rules ∧
      (evaluateIndividual W H M ind sel rng k).1.fitness = ind.fitness :=
  ⟨rfl, rfl, rfl, rfl, rfl⟩

/-! ### Checkpoint round-trip and mismatch fallback -/

/-- The eight member reads invert the eight member writes of one rule. -/
theorem loadRule_saveRule (r : Rule) (t : List FileField) :
    loadRule (saveRule r ++ t) = some (r, t) := rfl

/-- Reading back `n` saved rules yields them unchanged. -/
theorem loadRules_save :
    ∀ (rs : List Rule) (t : List FileField),
      loadRules rs.length (rs.flatMap saveRule ++ t) = some (rs, t) := by
  intro rs
  induction rs with
  | nil => intro t; rfl
  | cons r rest ih =>
    intro t
    show loadRules (rest.length + 1) ((saveRule r ++ rest.flatMap saveRule) ++ t)
      = some (r :: rest, t)
    rw [List.append_assoc, loadRules, loadRule_saveRule]
    show (do
      let (rs2, s2) ← loadRules rest.length (rest.flatMap saveRule ++ t)
      pure (r :: rs2, s2)) = some (r :: rest, t)
    rw [ih]
    rfl

/-- Reading back one saved individual yields it unchanged when the recorded
rule count matches the configured one. -/
theorem loadIndividual_save (ind : Individual) (t : List FileField) :
    loadIndividual ind.rules.length (saveIndividual ind ++ t) = some (ind, t) := by
  show loadIndividual ind.rules.length
    ((FileField.fInt (ind.rules.length : Int)
      :: (ind.rules.flatMap saveRule ++ [FileField.fDouble ind.fitness])) ++ t)
    = some (ind, t)
  rw [loadIndividual]
  show (do
    let (numRules, s) ← readInt (FileField.fInt (ind.rules.length : Int)
      :: ((ind.rules.flatMap saveRule ++ [FileField.fDouble ind.fitness]) ++ t))
    if numRules = (ind.rules.length : Int) then
      let (rs, s2) ← loadRules ind.rules.length s
      let (fit, s3) ← readDouble s2
      pure (({ rules := rs, fitness := fit } : Individual), s3)
    else none) = some (ind, t)
  rw [readInt]
  show (if (ind.rules.length : Int) = (ind.rules.length : Int) then _ else none)
    = some (ind, t)
  rw [if_pos rfl, List.append_assoc, loadRules_save]
  rfl

/-- Reading back a saved population front through the assigned-vector loop
overwrites exactly the saved individuals when every one carries the
configured rule count. -/
theorem loadIndividualsLoop_save (R : Nat) :
    ∀ (pop done : List Individual) (t : List FileField),
      (∀ ind ∈ pop, ind.rules.length = R) →
      loadIndividualsLoop R pop.length done (pop.flatMap saveIndividual ++ t)
        = (true, done ++ pop) := by
  intro pop
  induction pop with
  | nil =>
    intro done t _
    show (true, done) = (true, done ++ [])
    rw [List.append_nil]
  | cons ind rest ih =>
    intro done t hr
    have hind : ind.rules.length = R := hr ind (List.mem_cons_self ..)
    have hload := loadIndividual_save ind (rest.flatMap saveIndividual ++ t)
    rw [hind] at hload
    show loadIndividualsLoop R (rest.length + 1) done
      ((saveIndividual ind ++ rest.flatMap saveIndividual) ++ t)
      = (true, done ++ ind :: rest)
    rw [List.append_assoc, loadIndividualsLoop, hload]
    show loadIndividualsLoop R rest.length (done ++ [ind])
      (rest.flatMap saveIndividual ++ t) = (true, done ++ ind :: rest)
    rw [ih (done ++ [ind]) t (fun i hi => hr i (List.mem_cons_of_mem _ hi)),
      List.append_assoc]
    rfl

/-- **C6.**  For every population whose size equals `POPULATION_SIZE` and
whose every individual carries `NUM_RULES` rules, `loadPopulation` run on
the exact field stream written by `savePopulation` reports success and
leaves the caller's vector holding the saved population unchanged, field for
field (every rule member and every fitness value) — whatever that vector
held before the call. -/
theorem savePopulation_loadPopulation_roundtrip (P R : Nat)
    (pop init : List Individual) (hP : pop.length = P)
    (hR : ∀ ind ∈ pop, ind.rules.length = R) :
    loadPopulation P R (savePopulation pop) init = (true, pop) := by
  show loadPopulation P R
    (FileField.fInt (pop.length : Int) :: pop.flatMap saveIndividual) init
    = (true, pop)
  rw [loadPopulation, readInt]
  show (if (pop.length : Int) = (P : Int)
    then loadIndividualsLoop R P [] (pop.flatMap saveIndividual)
    else (false, init)) = (true, pop)
  rw [if_pos (by rw [hP]), ← hP, ← List.append_nil (pop.flatMap saveIndividual),
    loadIndividualsLoop_save R pop [] [] hR, List.nil_append]

/-- Witness: a one-individual, one-rule population with a fractional fitness
round-trips into the initially empty vector of `main`. -/
theorem savePopulation_loadPopulation_roundtrip_witness :
    ([⟨[⟨1, 2, 3, true, false, 1, 4, RuleAction.ACTION_PLACE_FLAG⟩],
        (7 : ℚ) / 2⟩] : List Individual).length = 1 ∧
      (∀ ind ∈ ([⟨[⟨1, 2, 3, true, false, 1, 4, RuleAction.ACTION_PLACE_FLAG⟩],
        (7 : ℚ) / 2⟩] : List Individual), ind.rules.length = 1) ∧
      loadPopulation 1 1 (savePopulation
        [⟨[⟨1, 2, 3, true, false, 1, 4, RuleAction.ACTION_PLACE_FLAG⟩], (7 : ℚ) / 2⟩]) []
      = (true, [⟨[⟨1, 2, 3, true, false, 1, 4, RuleAction.ACTION_PLACE_FLAG⟩],
          (7 : ℚ) / 2⟩]) :=
  ⟨rfl, by decide,
    savePopulation_loadPopulation_roundtrip 1 1
      [⟨[⟨1, 2, 3, true, false, 1, 4, RuleAction.ACTION_PLACE_FLAG⟩], (7 : ℚ) / 2⟩]
      [] rfl (by decide)⟩

/-- Reading one saved individual fails when its recorded rule count differs
from the configured one. -/
theorem loadIndividual_mismatch (R : Nat) (ind : Individual) (t : List FileField)
    (hne : ind.rules.length ≠ R) :
    loadIndividual R (saveIndividual ind ++ t) = none := by
  show loadIndividual R ((FileField.fInt (ind.rules.length : Int)
    :: (ind.rules.flatMap saveRule ++ [FileField.fDouble ind.fitness])) ++ t) = none
  rw [loadIndividual]
  show (do
    let (numRules, s) ← readInt (FileField.fInt (ind.rules.length : Int)
      :: ((ind.rules.flatMap saveRule ++ [FileField.fDouble ind.fitness]) ++ t))
    if numRules = (R : Int) then
      let (rs, s2) ← loadRules R s
      let (fit, s3) ← readDouble s2
      pure (({ rules := rs, fitness := fit } : Individual), s3)
    else none) = none
  rw [readInt]
  show (if (ind.rules.length : Int) = (R : Int) then _ else none) = none
  rw [if_neg (by exact_mod_cast hne)]

/-- The individual loop fails as soon as it meets a mismatched rule count,
leaving every not-yet-overwritten position holding the assigned
`Individual()` default. -/
theorem loadIndividualsLoop_mismatch (R : Nat) (ind : Individual)
    (rest : List Individual) (n : Nat) (done : List Individual)
    (t : List FileField) (hne : ind.rules.length ≠ R) :
    loadIndividualsLoop R (n + 1) done ((ind :: rest).flatMap saveIndividual ++ t)
      = (false, done ++ List.replicate (n + 1) defaultIndividual) := by
  show loadIndividualsLoop R (n + 1) done
    ((saveIndividual ind ++ rest.flatMap saveIndividual) ++ t)
    = (false, done ++ List.replicate (n + 1) defaultIndividual)
  rw [List.append_assoc, loadIndividualsLoop, loadIndividual_mismatch R ind _ hne]

/-- **C7** (refuting the fallback size).  Both mismatches fail gracefully —
`loadPopulation` returns `false`, nothing aborts — and on a recorded
*population-size* mismatch the caller's vector is still untouched, so
`main`'s fallback does build exactly `P` fresh individuals.  But on a
*rule-count* mismatch `loadPopulation` has already executed
`population.assign(popSize, Individual())`: it returns `false` with the
vector holding `P` empty-genome defaults, and `main` then `push_back`s `P`
fresh individuals without clearing, so the trainer proceeds with `2*P`
individuals, half of them empty-genome — not the freshly generated random
population of the requested size the specification promises. -/
theorem loadPopulation_mismatch_doubles_population (P R P2 R2 : Nat)
    (pop : List Individual) (rng : Nat → Nat → Nat)
    (hlen : pop.length = P2) (hr : ∀ ind ∈ pop, ind.rules.length = R2) :
    (P2 ≠ P →
      loadPopulation P R (savePopulation pop) [] = (false, []) ∧
      (initialPopulationFrom P R (savePopulation pop) rng).length = P) ∧
    (P2 = P → 0 < P → R2 ≠ R →
      loadPopulation P R (savePopulation pop) []
        = (false, List.replicate P defaultIndividual) ∧
      initialPopulationFrom P R (savePopulation pop) rng
        = List.replicate P defaultIndividual
          ++ (List.range P).map (fun i => createRandomIndividual R (rng i)) ∧
      (initialPopulationFrom P R (savePopulation pop) rng).length = 2 * P) := by
  constructor
  · intro hne
    have hload : loadPopulation P R (savePopulation pop) [] = (false, []) := by
      show loadPopulation P R
        (FileField.fInt (pop.length : Int) :: pop.flatMap saveIndividual) []
        = (false, [])
      rw [loadPopulation, readInt]
      show (if (pop.length : Int) = (P : Int)
        then loadIndividualsLoop R P [] (pop.flatMap saveIndividual)
        else (false, [])) = (false, [])
      rw [if_neg (by rw [hlen]; exact_mod_cast hne)]
    refine ⟨hload, ?_⟩
    unfold initialPopulationFrom
    rw [hload]
    show ((List.range P).map (fun i => createRandomIndividual R (rng i))).length = P
    rw [List.length_map, List.length_range]
  · intro hpe hpos hrne
    have hload : loadPopulation P R (savePopulation pop) []
        = (false, List.replicate P defaultIndividual) := by
      show loadPopulation P R
        (FileField.fInt (pop.length : Int) :: pop.flatMap saveIndividual) []
        = (false, List.replicate P defaultIndividual)
      rw [loadPopulation, readInt]
      show (if (pop.length : Int) = (P : Int)
        then loadIndividualsLoop R P [] (pop.flatMap saveIndividual)
        else (false, [])) = (false, List.replicate P defaultIndividual)
      rw [if_pos (by rw [hlen, hpe])]
      cases pop with
      | nil =>
        simp at hlen
        omega
      | cons ind rest =>
        have hind : ind.rules.length = R2 := hr ind (List.mem_cons_self ..)
        have hP : P = rest.length + 1 := by
          rw [← hpe, ← hlen]
          rfl
        rw [hP, ← List.append_nil ((ind :: rest).flatMap saveIndividual),
          loadIndividualsLoop_mismatch R ind rest rest.length [] []
            (by rw [hind]; exact hrne), List.nil_append]
    have hfall : initialPopulationFrom P R (savePopulation pop) rng
        = List.replicate P defaultIndividual
          ++ (List.range P).map (fun i => createRandomIndividual R (rng i)) := by
      unfold initialPopulationFrom
      rw [hload]
    refine ⟨hload, hfall, ?_⟩
    rw [hfall, List.length_append, List.length_replicate, List.length_map,
      List.length_range]
    omega

/-- Witness: a saved one-individual population whose genome has one rule,
loaded under a configured rule count of `2`: the load fails gracefully with
the vector holding the one assigned default, and the fallback appends one
fresh individual — two individuals where the configuration asks for one. -/
theorem loadPopulation_mismatch_doubles_population_witness :
    (([⟨[⟨1, 2, 3, true, false, 1, 4, RuleAction.ACTION_PLACE_FLAG⟩],
        (7 : ℚ) / 2⟩] : List Individual).length = 1 ∧
      (∀ ind ∈ ([⟨[⟨1, 2, 3, true, false, 1, 4, RuleAction.ACTION_PLACE_FLAG⟩],
        (7 : ℚ) / 2⟩] : List Individual), ind.rules.length = 1) ∧
      (1 : Nat) = 1 ∧ 0 < 1 ∧ (1 : Nat) ≠ 2) ∧
    loadPopulation 1 2 (savePopulation
        [⟨[⟨1, 2, 3, true, false, 1, 4, RuleAction.ACTION_PLACE_FLAG⟩], (7 : ℚ) / 2⟩]) []
      = (false, List.replicate 1 defaultIndividual) ∧
    (initialPopulationFrom 1 2 (savePopulation
        [⟨[⟨1, 2, 3, true, false, 1, 4, RuleAction.ACTION_PLACE_FLAG⟩], (7 : ℚ) / 2⟩])
      (fun _ _ => 0)).length = 2 * 1 :=
  ⟨⟨rfl, by decide, rfl, by decide, by decide⟩,
    ((loadPopulation_mismatch_doubles_population 1 2 1 1
        [⟨[⟨1, 2, 3, true, false, 1, 4, RuleAction.ACTION_PLACE_FLAG⟩], (7 : ℚ) / 2⟩]
        (fun _ _ => 0) rfl (by decide)).2 rfl (by decide) (by decide)).1,
    ((loadPopulation_mismatch_doubles_population 1 2 1 1
        [⟨[⟨1, 2, 3, true, false, 1, 4, RuleAction.ACTION_PLACE_FLAG⟩], (7 : ℚ) / 2⟩]
        (fun _ _ => 0) rfl (by decide)).2 rfl (by decide) (by decide)).2.2⟩

/-! ### Crossover block structure -/

theorem copyRange_length (src : List Rule) :
    ∀ (n lo : Nat) (dst : List Rule), (copyRange src lo n dst).length = dst.length := by
  intro n
  induction n with
  | zero => intro lo dst; rfl
  | succ m ih =>
    intro lo dst
    show (copyRange src (lo + 1) m (dst.set lo (src.getD lo defaultRule))).length
      = dst.length
    rw [ih, List.length_set]

/-- Pointwise behaviour of the block-copy loop: positions inside the
in-range copied window take the source value, all others are untouched. -/
theorem copyRange_getD (src : List Rule) :
    ∀ (n lo : Nat) (dst : List Rule) (i : Nat),
      (copyRange src lo n dst).getD i defaultRule
        = if lo ≤ i ∧ i < lo + n ∧ i < dst.length then src.getD i defaultRule
          else dst.getD i defaultRule := by
  intro n
  induction n with
  | zero =>
    intro lo dst i
    rw [if_neg]
    · rfl
    · rintro ⟨h1, h2, -⟩
      omega
  | succ m ih =>
    intro lo dst i
    show (copyRange src (lo + 1) m (dst.set lo (src.getD lo defaultRule))).getD i
        defaultRule = _
    rw [ih, List.length_set]
    by_cases hi : i = lo
    · subst hi
      rw [if_neg (by rintro ⟨h1, -, -⟩; omega)]
      by_cases hlen : i < dst.length
      · rw [getD_set_self dst i _ defaultRule hlen, if_pos ⟨le_refl i, by omega, hlen⟩]
      · rw [if_neg (by rintro ⟨-, -, h3⟩; omega)]
        rw [List.getD_eq_default, List.getD_eq_default]
        · omega
        · rw [List.length_set]; omega
    · rw [getD_set_ne dst lo i _ defaultRule (fun he => hi he.symm)]
      by_cases hc : lo ≤ i ∧ i < lo + (m + 1) ∧ i < dst.length
      · rw [if_pos ⟨by omega, by omega, hc.2.2⟩, if_pos hc]
      · rw [if_neg (fun hcc => hc ⟨by omega, by omega, hcc.2.2⟩), if_neg hc]

theorem insertAsc_eq (p : Nat) :
    ∀ (l : List Nat), insertAsc p l = List.orderedInsert (· ≤ ·) p l := by
  intro l
  induction l with
  | nil => rfl
  | cons q rest ih =>
    show (if p ≤ q then p :: q :: rest else q :: insertAsc p rest) = _
    rw [List.orderedInsert]
    split
    · rfl
    · rw [ih]

theorem sortPoints_eq_insertionSort (points : List Nat) :
    sortPoints points = List.insertionSort (· ≤ ·) points := by
  induction points with
  | nil => rfl
  | cons p rest ih =>
    show insertAsc p (sortPoints rest) = List.orderedInsert (· ≤ ·) p
      (List.insertionSort (· ≤ ·) rest)
    rw [ih, insertAsc_eq]

theorem sortPoints_sorted (points : List Nat) :
    List.Sorted (· ≤ ·) (sortPoints points) := by
  rw [sortPoints_eq_insertionSort]
  exact List.sorted_insertionSort (· ≤ ·) points

theorem sortPoints_perm (points : List Nat) :
    List.Perm (sortPoints points) points := by
  rw [sortPoints_eq_insertionSort]
  exact List.perm_insertionSort (· ≤ ·) points

/-- Full invariant of the crossover block loop over an ascending cut list:
lengths are preserved, `last` advances to the greatest cut, `toggle` records
the parity of the cuts consumed, positions outside `[last, last')` are
untouched, and a position inside it takes its value from the parent selected
by the parity of the cuts at or below it. -/
theorem crossFold_spec (p1r p2r : List Rule) (R : Nat) :
    ∀ (ps : List Nat) (st : CrossSt),
      List.Sorted (· ≤ ·) ps →
      (∀ p ∈ ps, st.last ≤ p ∧ p ≤ R) →
      st.last ≤ R → st.o1.length = R → st.o2.length = R →
      (ps.foldl (crossStep p1r p2r) st).o1.length = R ∧
      (ps.foldl (crossStep p1r p2r) st).o2.length = R ∧
      st.last ≤ (ps.foldl (crossStep p1r p2r) st).last ∧
      (ps.foldl (crossStep p1r p2r) st).last ≤ R ∧
      (∀ p ∈ ps, p ≤ (ps.foldl (crossStep p1r p2r) st).last) ∧
      ((ps.foldl (crossStep p1r p2r) st).toggle
        = if ps.length % 2 = 0 then st.toggle else !st.toggle) ∧
      (∀ i, i < st.last →
        (ps.foldl (crossStep p1r p2r) st).o1.getD i defaultRule
          = st.o1.getD i defaultRule ∧
        (ps.foldl (crossStep p1r p2r) st).o2.getD i defaultRule
          = st.o2.getD i defaultRule) ∧
      (∀ i, (ps.foldl (crossStep p1r p2r) st).last ≤ i →
        (ps.foldl (crossStep p1r p2r) st).o1.getD i defaultRule
          = st.o1.getD i defaultRule ∧
        (ps.foldl (crossStep p1r p2r) st).o2.getD i defaultRule
          = st.o2.getD i defaultRule) ∧
      (∀ i, st.last ≤ i → i < (ps.foldl (crossStep p1r p2r) st).last →
        ((ps.foldl (crossStep p1r p2r) st).o1.getD i defaultRule
          = if (ps.countP (fun p => p ≤ i)) % 2 = 0
            then (if st.toggle then p2r else p1r).getD i defaultRule
            else (if st.toggle then p1r else p2r).getD i defaultRule) ∧
        ((ps.foldl (crossStep p1r p2r) st).o2.getD i defaultRule
          = if (ps.countP (fun p => p ≤ i)) % 2 = 0
            then (if st.toggle then p1r else p2r).getD i defaultRule
            else (if st.toggle then p2r else p1r).getD i defaultRule)) := by
  intro ps
  induction ps with
  | nil =>
    intro st _ _ hlR h1 h2
    simp only [List.foldl_nil, List.length_nil, List.countP_nil]
    refine ⟨h1, h2, le_refl _, hlR, ?_, rfl, ?_, ?_, ?_⟩
    · intro p hp; cases hp
    · intro i _; trivial
    · intro i _; trivial
    · intro i hge hlt; omega
  | cons p ps2 ih =>
    intro st hs hmem hlR h1 h2
    rw [List.foldl_cons]
    have hstl : st.last ≤ p := (hmem p (List.mem_cons_self ..)).1
    have hpR : p ≤ R := (hmem p (List.mem_cons_self ..)).2
    have hs2 : List.Sorted (· ≤ ·) ps2 := (List.sorted_cons.mp hs).2
    have hhead : ∀ q ∈ ps2, p ≤ q := (List.sorted_cons.mp hs).1
    have hfields :
        (crossStep p1r p2r st p).last = p ∧
        (crossStep p1r p2r st p).toggle = !st.toggle ∧
        (crossStep p1r p2r st p).o1
          = copyRange (if st.toggle then p2r else p1r) st.last (p - st.last) st.o1 ∧
        (crossStep p1r p2r st p).o2
          = copyRange (if st.toggle then p1r else p2r) st.last (p - st.last) st.o2 := by
      cases htog : st.toggle <;> simp [crossStep, htog]
    obtain ⟨hf1, hf2, hf3, hf4⟩ := hfields
    obtain ⟨ih1, ih2, ih3, ih4, ih5, ih6, ih7, ih8, ih9⟩ :=
      ih (crossStep p1r p2r st p) hs2
        (fun q hq => ⟨by rw [hf1]; exact hhead q hq, (hmem q (List.mem_cons_of_mem _ hq)).2⟩)
        (by rw [hf1]; exact hpR)
        (by rw [hf3, copyRange_length]; exact h1)
        (by rw [hf4, copyRange_length]; exact h2)
    rw [hf1] at ih3
    refine ⟨ih1, ih2, le_trans hstl ih3, ih4, ?_, ?_, ?_, ?_, ?_⟩
    · intro q hq
      rcases List.mem_cons.mp hq with rfl | hq2
      · exact ih3
      · exact ih5 q hq2
    · rw [ih6, hf2]
      rcases Nat.mod_two_eq_zero_or_one ps2.length with hpar | hpar
      · rw [if_pos hpar, if_neg (by simp only [List.length_cons]; omega)]
      · rw [if_neg (by omega), if_pos (by simp only [List.length_cons]; omega),
          Bool.not_not]
    · -- frame below st.last
      intro i hilt
      have hfr := ih7 i (by rw [hf1]; omega)
      rw [hfr.1, hfr.2, hf3, hf4, copyRange_getD, copyRange_getD,
        if_neg (by rintro ⟨hg, -, -⟩; omega), if_neg (by rintro ⟨hg, -, -⟩; omega)]
      exact ⟨rfl, rfl⟩
    · -- frame at or above the final last
      intro i hige
      have hple : p ≤ (ps2.foldl (crossStep p1r p2r) (crossStep p1r p2r st p)).last := ih3
      have hfr := ih8 i hige
      rw [hfr.1, hfr.2, hf3, hf4, copyRange_getD, copyRange_getD,
        if_neg (by rintro ⟨-, hg, -⟩; omega), if_neg (by rintro ⟨-, hg, -⟩; omega)]
      exact ⟨rfl, rfl⟩
    · -- the filled region
      intro i hige hilt
      by_cases hip : i < p
      · have hfr := ih7 i (by rw [hf1]; omega)
        have hcnt : (p :: ps2).countP (fun q => q ≤ i) = 0 := by
          rw [List.countP_eq_zero]
          intro q hq
          rcases List.mem_cons.mp hq with rfl | hq2
          · simp only [decide_eq_true_eq]
            omega
          · have := hhead q hq2
            simp only [decide_eq_true_eq]
            omega
        have hm1 : (ps2.foldl (crossStep p1r p2r) (crossStep p1r p2r st p)).o1.getD i
            defaultRule = (if st.toggle then p2r else p1r).getD i defaultRule := by
          rw [hfr.1, hf3, copyRange_getD]
          rw [if_pos ⟨hige, by omega, by omega⟩]
        have hm2 : (ps2.foldl (crossStep p1r p2r) (crossStep p1r p2r st p)).o2.getD i
            defaultRule = (if st.toggle then p1r else p2r).getD i defaultRule := by
          rw [hfr.2, hf4, copyRange_getD]
          rw [if_pos ⟨hige, by omega, by omega⟩]
        rw [hm1, hm2, hcnt]
        norm_num
      · have hmid := ih9 i (by rw [hf1]; omega) hilt
        have hcnt : (p :: ps2).countP (fun q => q ≤ i)
            = ps2.countP (fun q => q ≤ i) + 1 := by
          rw [List.countP_cons, if_pos (by simp only [decide_eq_true_eq]; omega)]
        rw [hmid.1, hmid.2, hf2, hcnt]
        rcases Nat.mod_two_eq_zero_or_one (ps2.countP (fun q => q ≤ i)) with hpar | hpar
        · have hpar2 : (ps2.countP (fun q => q ≤ i) + 1) % 2 = 1 := by omega
          rw [hpar, hpar2]
          norm_num
          cases st.toggle <;> exact ⟨rfl, rfl⟩
        · have hpar2 : (ps2.countP (fun q => q ≤ i) + 1) % 2 = 0 := by omega
          rw [hpar, hpar2]
          norm_num
          cases st.toggle <;> exact ⟨rfl, rfl⟩

/-- **C8.**  Every gene position of each offspring is copied verbatim from
exactly one of the two parents — never blended: position `i` of the first
offspring comes from parent 1 exactly when an even number of cut points lie
at or below `i`, so the `R`-length genome splits at the cuts into contiguous
blocks of alternating origin starting at parent 1, and the second offspring
mirrors the first.  The cut points drawn by the rejection loop lie in
`[1, R-1]`; the block structure holds for every such cut set. -/
theorem crossover_gene_origin (R : Nat) (p1 p2 : Individual) (points : List Nat)
    (hmem : ∀ p ∈ points, 1 ≤ p ∧ p ≤ R - 1) :
    ((crossover R p1 p2 points).1.rules.length = R ∧
      (crossover R p1 p2 points).2.rules.length = R) ∧
    (∀ i, i < R →
      ((crossover R p1 p2 points).1.rules.getD i defaultRule
          = if points.countP (fun p => p ≤ i) % 2 = 0
            then p1.rules.getD i defaultRule else p2.rules.getD i defaultRule) ∧
      ((crossover R p1 p2 points).2.rules.getD i defaultRule
          = if points.countP (fun p => p ≤ i) % 2 = 0
            then p2.rules.getD i defaultRule else p1.rules.getD i defaultRule)) := by
  have hsorted := sortPoints_sorted points
  have hperm := sortPoints_perm points
  obtain ⟨hh1, hh2, hh3, hh4, hh5, hh6, hh7, hh8, hh9⟩ :=
    crossFold_spec p1.rules p2.rules R (sortPoints points)
      ⟨List.replicate R defaultRule, List.replicate R defaultRule, 0, false⟩
      hsorted
      (fun p hp => ⟨Nat.zero_le p, by
        have h2 := (hmem p (hperm.mem_iff.mp hp)).2
        omega⟩)
      (Nat.zero_le R) (List.length_replicate ..) (List.length_replicate ..)
  simp only [crossover]
  constructor
  · constructor
    · split <;> rw [copyRange_length] <;> exact hh1
    · split <;> rw [copyRange_length] <;> exact hh2
  · intro i hiR
    by_cases hi : i < (List.foldl (crossStep p1.rules p2.rules)
        ⟨List.replicate R defaultRule, List.replicate R defaultRule, 0, false⟩
        (sortPoints points)).last
    · have h9 := hh9 i (Nat.zero_le i) hi
      have hcp : points.countP (fun p => p ≤ i)
          = (sortPoints points).countP (fun p => p ≤ i) :=
        (hperm.countP_eq _).symm
      constructor
      · rw [hcp]
        split <;>
          (rw [copyRange_getD, if_neg (by rintro ⟨hgel, -, -⟩; omega)]; exact h9.1)
      · rw [hcp]
        split <;>
          (rw [copyRange_getD, if_neg (by rintro ⟨hgel, -, -⟩; omega)]; exact h9.2)
    · have hge : (List.foldl (crossStep p1.rules p2.rules)
          ⟨List.replicate R defaultRule, List.replicate R defaultRule, 0, false⟩
          (sortPoints points)).last ≤ i := by omega
      have hcall : ∀ p ∈ points, p ≤ i :=
        fun p hp => le_trans (hh5 p (hperm.mem_iff.mpr hp)) hge
      have hcnt : points.countP (fun p => p ≤ i) = points.length :=
        List.countP_eq_length.mpr
          (fun a ha => by simp only [decide_eq_true_eq]; exact hcall a ha)
      have hlen_eq : (sortPoints points).length = points.length := hperm.length_eq
      rcases Nat.mod_two_eq_zero_or_one points.length with hpar | hpar
      · have htog : (List.foldl (crossStep p1.rules p2.rules)
            ⟨List.replicate R defaultRule, List.replicate R defaultRule, 0, false⟩
            (sortPoints points)).toggle = false := by
          rw [hh6, hlen_eq, if_pos hpar]
        constructor
        · rw [hcnt, if_pos hpar]
          split
          · rename_i htog2
            rw [htog] at htog2
            cases htog2
          · rw [copyRange_getD, if_pos ⟨hge, by omega, by omega⟩]
        · rw [hcnt, if_pos hpar]
          split
          · rename_i htog2
            rw [htog] at htog2
            cases htog2
          · rw [copyRange_getD, if_pos ⟨hge, by omega, by omega⟩]
      · have htog : (List.foldl (crossStep p1.rules p2.rules)
            ⟨List.replicate R defaultRule, List.replicate R defaultRule, 0, false⟩
            (sortPoints points)).toggle = true := by
          rw [hh6, hlen_eq, if_neg (show ¬(points.length % 2 = 0) by omega)]
          rfl
        constructor
        · rw [hcnt, if_neg (show ¬(points.length % 2 = 0) by omega)]
          split
          · rw [copyRange_getD, if_pos ⟨hge, by omega, by omega⟩]
          · rename_i htog2
            rw [htog] at htog2
            exact absurd rfl htog2
        · rw [hcnt, if_neg (show ¬(points.length % 2 = 0) by omega)]
          split
          · rw [copyRange_getD, if_pos ⟨hge, by omega, by omega⟩]
          · rename_i htog2
            rw [htog] at htog2
            exact absurd rfl htog2

/-- Witness: two cut points `{1, 2}` on a 3-rule genome give offspring
`[a0, b1, a2]` and `[b0, a1, b2]`. -/
theorem crossover_gene_origin_witness :
    (∀ p ∈ ([2, 1] : List Nat), 1 ≤ p ∧ p ≤ 3 - 1) ∧
    (((crossover 3
        ⟨[⟨1, 0, 0, false, false, 1, 1, RuleAction.ACTION_REVEAL_HIDDEN⟩,
          ⟨2, 0, 0, false, false, 1, 1, RuleAction.ACTION_REVEAL_HIDDEN⟩,
          ⟨3, 0, 0, false, false, 1, 1, RuleAction.ACTION_REVEAL_HIDDEN⟩], 0⟩
        ⟨[⟨11, 0, 0, false, false, 1, 1, RuleAction.ACTION_REVEAL_HIDDEN⟩,
          ⟨12, 0, 0, false, false, 1, 1, RuleAction.ACTION_REVEAL_HIDDEN⟩,
          ⟨13, 0, 0, false, false, 1, 1, RuleAction.ACTION_REVEAL_HIDDEN⟩], 0⟩
        [2, 1]).1.rules.length = 3 ∧
      (crossover 3
        ⟨[⟨1, 0, 0, false, false, 1, 1, RuleAction.ACTION_REVEAL_HIDDEN⟩,
          ⟨2, 0, 0, false, false, 1, 1, RuleAction.ACTION_REVEAL_HIDDEN⟩,
          ⟨3, 0, 0, false, false, 1, 1, RuleAction.ACTION_REVEAL_HIDDEN⟩], 0⟩
        ⟨[⟨11, 0, 0, false, false, 1, 1, RuleAction.ACTION_REVEAL_HIDDEN⟩,
          ⟨12, 0, 0, false, false, 1, 1, RuleAction.ACTION_REVEAL_HIDDEN⟩,
          ⟨13, 0, 0, false, false, 1, 1, RuleAction.ACTION_REVEAL_HIDDEN⟩], 0⟩
        [2, 1]).2.rules.length = 3) ∧
    (∀ i, i < 3 →
      ((crossover 3
          ⟨[⟨1, 0, 0, false, false, 1, 1, RuleAction.ACTION_REVEAL_HIDDEN⟩,
            ⟨2, 0, 0, false, false, 1, 1, RuleAction.ACTION_REVEAL_HIDDEN⟩,
            ⟨3, 0, 0, false, false, 1, 1, RuleAction.ACTION_REVEAL_HIDDEN⟩], 0⟩
          ⟨[⟨11, 0, 0, false, false, 1, 1, RuleAction.ACTION_REVEAL_HIDDEN⟩,
            ⟨12, 0, 0, false, false, 1, 1, RuleAction.ACTION_REVEAL_HIDDEN⟩,
            ⟨13, 0, 0, false, false, 1, 1, RuleAction.ACTION_REVEAL_HIDDEN⟩], 0⟩
          [2, 1]).1.rules.getD i defaultRule
          = if ([2, 1] : List Nat).countP (fun p => p ≤ i) % 2 = 0
            then ([⟨1, 0, 0, false, false, 1, 1, RuleAction.ACTION_REVEAL_HIDDEN⟩,
              ⟨2, 0, 0, false, false, 1, 1, RuleAction.ACTION_REVEAL_HIDDEN⟩,
              ⟨3, 0, 0, false, false, 1, 1, RuleAction.ACTION_REVEAL_HIDDEN⟩]
                : List Rule).getD i defaultRule
            else ([⟨11, 0, 0, false, false, 1, 1, RuleAction.ACTION_REVEAL_HIDDEN⟩,
              ⟨12, 0, 0, false, false, 1, 1, RuleAction.ACTION_REVEAL_HIDDEN⟩,
              ⟨13, 0, 0, false, false, 1, 1, RuleAction.ACTION_REVEAL_HIDDEN⟩]
                : List Rule).getD i defaultRule) ∧
      ((crossover 3
          ⟨[⟨1, 0, 0, false, false, 1, 1, RuleAction.ACTION_REVEAL_HIDDEN⟩,
            ⟨2, 0, 0, false, false, 1, 1, RuleAction.ACTION_REVEAL_HIDDEN⟩,
            ⟨3, 0, 0, false, false, 1, 1, RuleAction.ACTION_REVEAL_HIDDEN⟩], 0⟩
          ⟨[⟨11, 0, 0, false, false, 1, 1, RuleAction.ACTION_REVEAL_HIDDEN⟩,
            ⟨12, 0, 0, false, false, 1, 1, RuleAction.ACTION_REVEAL_HIDDEN⟩,
            ⟨13, 0, 0, false, false, 1, 1, RuleAction.ACTION_REVEAL_HIDDEN⟩], 0⟩
          [2, 1]).2.rules.getD i defaultRule
          = if ([2, 1] : List Nat).countP (fun p => p ≤ i) % 2 = 0
            then ([⟨11, 0, 0, false, false, 1, 1, RuleAction.ACTION_REVEAL_HIDDEN⟩,
              ⟨12, 0, 0, false, false, 1, 1, RuleAction.ACTION_REVEAL_HIDDEN⟩,
              ⟨13, 0, 0, false, false, 1, 1, RuleAction.ACTION_REVEAL_HIDDEN⟩]
                : List Rule).getD i defaultRule
            else ([⟨1, 0, 0, false, false, 1, 1, RuleAction.ACTION_REVEAL_HIDDEN⟩,
              ⟨2, 0, 0, false, false, 1, 1, RuleAction.ACTION_REVEAL_HIDDEN⟩,
              ⟨3, 0, 0, false, false, 1, 1, RuleAction.ACTION_REVEAL_HIDDEN⟩]
                : List Rule).getD i defaultRule))) :=
  ⟨by decide,
    crossover_gene_origin 3
      ⟨[⟨1, 0, 0, false, false, 1, 1, RuleAction.ACTION_REVEAL_HIDDEN⟩,
        ⟨2, 0, 0, false, false, 1, 1, RuleAction.ACTION_REVEAL_HIDDEN⟩,
        ⟨3, 0, 0, false, false, 1, 1, RuleAction.ACTION_REVEAL_HIDDEN⟩], 0⟩
      ⟨[⟨11, 0, 0, false, false, 1, 1, RuleAction.ACTION_REVEAL_HIDDEN⟩,
        ⟨12, 0, 0, false, false, 1, 1, RuleAction.ACTION_REVEAL_HIDDEN⟩,
        ⟨13, 0, 0, false, false, 1, 1, RuleAction.ACTION_REVEAL_HIDDEN⟩], 0⟩
      [2, 1] (by decide)⟩

end CampoMinado
